import Mathlib

/-!
Shallow embedding of the minsk Minesweeper engine (src/minesweeper.py).

Mutable Python objects become explicit state passing: a `Board` is the grid
of `Cell` records indexed by integer coordinates, and every `Game` method
becomes a function from the pre-state to the post-state.  Python `int`
coordinates are modelled by `Int` (so `row - 1` can genuinely be `-1`, as
in the source, and `Board.contains` rejects it), counts by `Nat`, and the
mutable score by `Int`.  The recursive flood fill `reveal_cell_area` is
written with an explicit fuel parameter and returns `none` exactly when
the fuel runs out; a theorem below shows that fuel exceeding the number of
hidden cells always suffices, which is the termination argument.
Randomness (mine placement, uuid generation) is abstracted by passing the
chosen cell sequence / identifier as a parameter, and wall-clock time by
passing `now : Int` explicitly.
-/

namespace Minsk

/-- End state of a game: Python uses the strings `won` / `lost`
(`end_status = None` is modelled by `Option.none`). -/
inductive Status where
  | won
  | lost
deriving DecidableEq, Repr

/-- One board position, mirroring `Cell.__init__` (minesweeper.py lines
158-166).  The source also stores `row`/`col` inside the cell; in this
embedding a cell is identified by its grid index, so those two fields are
carried by the index instead of being duplicated in the record. -/
structure Cell where
  value : Nat
  hidden : Bool
  mined : Bool
  flagged : Bool
deriving DecidableEq, Repr

/-- A freshly constructed cell (`Cell.__init__`): value 0, hidden, not
mined, not flagged. -/
def Cell.init : Cell :=
  { value := 0, hidden := true, mined := false, flagged := false }

/-- The board: dimensions plus the grid contents.  The Python nested list
`board[row][col]` is modelled as a total function on integer coordinates;
out-of-bounds coordinates are never dereferenced by the guarded engine
code (`contains` is checked first). -/
structure Board where
  n_rows : Nat
  n_cols : Nat
  cells : Int → Int → Cell

/-- `Board.n_cells = n_rows * n_cols` (minesweeper.py line 215). -/
def Board.n_cells (b : Board) : Nat := b.n_rows * b.n_cols

/-- `Board.get_board` / `Board.__init__`: a fresh grid of `Cell.init`. -/
def Board.init (n_rows n_cols : Nat) : Board :=
  { n_rows := n_rows, n_cols := n_cols, cells := fun _ _ => Cell.init }

/-- Reading `board[row][col]`. -/
def Board.getCell (b : Board) (row col : Int) : Cell := b.cells row col

/-- Writing one cell of the grid (a Python cell-attribute mutation). -/
def Board.setCell (b : Board) (row col : Int) (cell : Cell) : Board :=
  { b with cells := fun r c => if r = row ∧ c = col then cell else b.cells r c }

/-- `Board.contains` (minesweeper.py lines 248-250): bounds predicate
`0 <= row <= n_rows - 1 and 0 <= col <= n_cols - 1`. -/
def Board.contains (b : Board) (row col : Int) : Bool :=
  if 0 ≤ row ∧ row ≤ (b.n_rows : Int) - 1 ∧ 0 ≤ col ∧ col ≤ (b.n_cols : Int) - 1
  then true else false

/-- The eight Moore-neighbourhood offsets of `Board.get_cell_neighbours`
(minesweeper.py lines 234-243), in source order. -/
def neighboursCoors (row col : Int) : List (Int × Int) :=
  [(row - 1, col - 1), (row - 1, col), (row - 1, col + 1),
   (row, col - 1), (row, col + 1),
   (row + 1, col - 1), (row + 1, col), (row + 1, col + 1)]

/-- `Board.get_cell_neighbours`: the in-bounds Moore neighbours (as
coordinates; the source yields the cell objects living there). -/
def Board.get_cell_neighbours (b : Board) (row col : Int) : List (Int × Int) :=
  (neighboursCoors row col).filter (fun q => b.contains q.1 q.2)

/-- All in-bounds coordinates in row-major order: the iteration order of
`Board.__iter__` (minesweeper.py lines 258-261). -/
def Board.allCoords (b : Board) : List (Int × Int) :=
  (List.range b.n_rows).flatMap
    (fun r => (List.range b.n_cols).map (fun c : Nat => ((r : Int), (c : Int))))

/-- One `n.value += 1` on a neighbour during neighbour-count propagation. -/
def Board.incValue (b : Board) (row col : Int) : Board :=
  b.setCell row col { b.getCell row col with value := (b.getCell row col).value + 1 }

/-- The body of the `for cell in self.board` loop of
`Game.update_neighbours` (minesweeper.py lines 97-101): if the cell at
`p` is mined, increment the value of each of its in-bounds Moore
neighbours. -/
def Board.update_neighbours_step (acc : Board) (p : Int × Int) : Board :=
  if (acc.getCell p.1 p.2).mined then
    (acc.get_cell_neighbours p.1 p.2).foldl (fun acc2 q => acc2.incValue q.1 q.2) acc
  else acc

/-- `Game.update_neighbours` (minesweeper.py lines 96-101), acting on the
board: for every cell in iteration order, if it is mined, increment the
value of each of its in-bounds Moore neighbours. -/
def Board.update_neighbours (b : Board) : Board :=
  b.allCoords.foldl Board.update_neighbours_step b

/-- The number of cells in the in-bounds Moore 8-neighbourhood of
`(row, col)` that are mined. -/
def Board.minedNeighbourCount (b : Board) (row col : Int) : Nat :=
  ((b.get_cell_neighbours row col).filter (fun q => (b.getCell q.1 q.2).mined)).length

/-- `GameSettings` (minesweeper.py lines 12-19).  In the source every
field is fixed (`n_rows = n_cols = 20`, `mines_ratio = 8`,
`n_mines = int(round(400 / 8)) = 50`); the record keeps them as data so
that statements can range over board shapes, as the spec's for-all-boards
properties do. -/
structure GameSettings where
  n_rows : Nat
  n_cols : Nat
  mines_ratio : Nat
  n_mines : Nat
deriving DecidableEq, Repr

/-- The fixed configuration built by `GameSettings.__init__`. -/
def GameSettings.standard : GameSettings :=
  { n_rows := 20, n_cols := 20, mines_ratio := 8, n_mines := 50 }

/-- The mutable state of a `Game` (minesweeper.py lines 63-75): its
settings, board, `end_status`, the `revealed_cells` list (the source
appends cell objects; a cell is identified here by its coordinates), and
the `score`.  `created_at` and `id_` play no role in any engine rule and
are omitted. -/
structure Game where
  settings : GameSettings
  board : Board
  end_status : Option Status
  revealed_cells : List (Int × Int)
  score : Int

/-- Reading the cell object at `(row, col)` of a game's board. -/
def Game.cellAt (g : Game) (row col : Int) : Cell := g.board.getCell row col

/-- `Cell.mine()` applied to the board cell chosen by one round of
`Game.place_mine_randomly`: only the `mined` flag is set. -/
def Game.place_mine (b : Board) (p : Int × Int) : Board :=
  b.setCell p.1 p.2 { b.getCell p.1 p.2 with mined := true }

/-- The cumulative effect of `Game.place_mines_randomly` when the random
draws (after collision retries) land on the cells listed in `ps`. -/
def Game.place_mines (b : Board) (ps : List (Int × Int)) : Board :=
  ps.foldl Game.place_mine b

/-- Possible raised exceptions of the engine, as data. -/
inductive PyExc where
  | notEnoughBoardCells (n_mines n_cells : Nat)
  | attributeError
  | keyError
deriving DecidableEq, Repr

/-- The guard at the top of `Game.place_mines_randomly` (minesweeper.py
lines 103-105).  The source reads
`raise NotEnoughBoardCellsError(self.settings.n_mines, self.n_cells)`,
but `Game` has no attribute `n_cells` (the cell count lives on
`self.board`), so evaluating the raise expression itself raises
`AttributeError` before a `NotEnoughBoardCellsError` is ever constructed;
the error branch is therefore modelled as `PyExc.attributeError`. -/
def place_mines_randomly_check (settings : GameSettings) (board : Board) :
    Except PyExc Unit :=
  if settings.n_mines > board.n_cells then Except.error PyExc.attributeError
  else Except.ok ()

/-- `Game.__init__` (minesweeper.py lines 64-78) in the successful case:
fresh board, `end_status = None`, empty `revealed_cells`, zero score, then
mine placement (with draw sequence `ps`) followed by one run of
`update_neighbours`. -/
def Game.init (n_rows n_cols n_mines : Nat) (ps : List (Int × Int)) : Game :=
  { settings := { n_rows := n_rows, n_cols := n_cols, mines_ratio := 8, n_mines := n_mines },
    board := (Game.place_mines (Board.init n_rows n_cols) ps).update_neighbours,
    end_status := none,
    revealed_cells := [],
    score := 0 }

/-- `Game.reveal_all_cells` (minesweeper.py lines 153-156): unhide every
cell on the board. -/
def Game.reveal_all_cells (g : Game) : Game :=
  { g with board :=
      { g.board with cells := fun r c =>
          if g.board.contains r c then { g.board.cells r c with hidden := false }
          else g.board.cells r c } }

/-- `Game.check_score` (minesweeper.py lines 80-83): if the score equals
the configured mine count, set `end_status = won` and bulk-reveal. -/
def Game.check_score (g : Game) : Game :=
  if g.score = (g.settings.n_mines : Int) then
    Game.reveal_all_cells { g with end_status := some Status.won }
  else g

/-- `Game.completion` (minesweeper.py lines 85-86): Python true division,
modelled over the rationals. -/
def Game.completion (g : Game) : Rat :=
  ((g.score : Rat) / (g.settings.n_mines : Rat)) * 100

/-- The message returned by `toggle_flag` on a revealed cell. -/
def cannotFlagMsg : String := "Cannot flag/unflag an already revealed cell!"

/-- `Game.toggle_flag` (minesweeper.py lines 110-125).  Returns the new
state together with the optional recoverable message.  Mirrors the source:
reject non-hidden cells; unflag (adjusting the score for mines) or flag
(adjusting the score for mines, then running the win check). -/
def Game.toggle_flag (g : Game) (row col : Int) : Game × Option String :=
  let cell := g.board.getCell row col
  if cell.hidden = false then (g, some cannotFlagMsg)
  else if cell.flagged then
    let g1 := { g with board := g.board.setCell row col { cell with flagged := false } }
    (if cell.mined then { g1 with score := g1.score - 1 } else g1, none)
  else
    let g1 := { g with board := g.board.setCell row col { cell with flagged := true } }
    let g2 := if cell.mined then { g1 with score := g1.score + 1 } else g1
    (g2.check_score, none)

/-- The four orthogonal offsets of `reveal_cell_area` (minesweeper.py
lines 136-141), in source order: up, right, down, left. -/
def adjacentCoords (row col : Int) : List (Int × Int) :=
  [(row - 1, col), (row, col + 1), (row + 1, col), (row, col - 1)]

/-- Lines 148-151 of `reveal_cell_area`: after the branch on the revealed
cell, if every non-mine cell has been revealed (by count), force
`score = n_mines` and run the win check.  The subtraction is over `Int`,
as in Python.  Note that in the source this code runs on every call,
including after the mined/lost branch. -/
def Game.reveal_end_check (g : Game) : Game :=
  if (g.board.n_cells : Int) - g.revealed_cells.length = (g.settings.n_mines : Int) then
    Game.check_score { g with score := (g.settings.n_mines : Int) }
  else g

/-- `Game.reveal_cell_area` (minesweeper.py lines 127-151) with explicit
fuel bounding the recursion depth; `none` means the fuel ran out (a
theorem below shows any fuel larger than the number of hidden cells
suffices, so the Python recursion terminates).  A flagged cell is left
untouched; a mined cell sets `end_status = lost` and bulk-reveals;
otherwise the cell is unhidden, appended to `revealed_cells`, and each of
the four orthogonal neighbours (up, right, down, left — source order) is
processed: if it is in bounds, the revealed cell's value is 0, and the
neighbour is currently hidden and not mined, recurse into it.  Finally
the `reveal_end_check` of lines 148-151 runs (also after the mined
branch, as in the source).  The four inlined neighbour steps are
abbreviated by `Game.tryRevealAdjacent` below, and the equation
`reveal_cell_area_succ` restates this definition in terms of it. -/
def Game.reveal_cell_area : Nat → Game → Int → Int → Option Game
  | 0, _, _, _ => none
  | Nat.succ fuel, g, row, col =>
    let cell := g.board.getCell row col
    if cell.flagged then some g
    else if cell.mined then
      some (Game.reveal_end_check
        (Game.reveal_all_cells { g with end_status := some Status.lost }))
    else
      let g1 : Game := { g with
        board := g.board.setCell row col { cell with hidden := false },
        revealed_cells := g.revealed_cells ++ [(row, col)] }
      Option.bind
        (if g1.board.contains (row - 1) col then
          if cell.value = 0 ∧ (g1.board.getCell (row - 1) col).hidden = true ∧
              (g1.board.getCell (row - 1) col).mined = false then
            Game.reveal_cell_area fuel g1 (row - 1) col
          else some g1
        else some g1)
        (fun g2 => Option.bind
          (if g2.board.contains row (col + 1) then
            if cell.value = 0 ∧ (g2.board.getCell row (col + 1)).hidden = true ∧
                (g2.board.getCell row (col + 1)).mined = false then
              Game.reveal_cell_area fuel g2 row (col + 1)
            else some g2
          else some g2)
          (fun g3 => Option.bind
            (if g3.board.contains (row + 1) col then
              if cell.value = 0 ∧ (g3.board.getCell (row + 1) col).hidden = true ∧
                  (g3.board.getCell (row + 1) col).mined = false then
                Game.reveal_cell_area fuel g3 (row + 1) col
              else some g3
            else some g3)
            (fun g4 => Option.bind
              (if g4.board.contains row (col - 1) then
                if cell.value = 0 ∧ (g4.board.getCell row (col - 1)).hidden = true ∧
                    (g4.board.getCell row (col - 1)).mined = false then
                  Game.reveal_cell_area fuel g4 row (col - 1)
                else some g4
              else some g4)
              (fun g5 => some (Game.reveal_end_check g5)))))

/-- One iteration of the `for row, col in adjacent` loop of
`reveal_cell_area` (minesweeper.py lines 142-146), as inlined four times
in the definition above: if the neighbour is in bounds, the revealed
cell's value `v` is 0, and the neighbour is currently hidden and not
mined, recurse into it; otherwise leave the state alone. -/
def Game.tryRevealAdjacent (fuel : Nat) (v : Nat) (g : Game) (row col : Int) :
    Option Game :=
  if g.board.contains row col then
    if v = 0 ∧ (g.board.getCell row col).hidden = true ∧
        (g.board.getCell row col).mined = false then
      Game.reveal_cell_area fuel g row col
    else some g
  else some g

/-- The number of in-bounds hidden cells of a game — the fuel measure for
the flood fill. -/
def Game.countHidden (g : Game) : Nat :=
  g.board.allCoords.countP (fun p => (g.board.getCell p.1 p.2).hidden)

/-- The number of in-bounds cells that are both flagged and mined — what
the spec asserts the `score` tracks. -/
def Game.flaggedMinesCount (g : Game) : Nat :=
  g.board.allCoords.countP
    (fun p => (g.board.getCell p.1 p.2).flagged && (g.board.getCell p.1 p.2).mined)

/-- Every in-bounds cell of the game is unhidden (the state after a
terminal bulk reveal). -/
def Game.AllUnhidden (g : Game) : Prop :=
  ∀ r : Nat, r < g.board.n_rows → ∀ c : Nat, c < g.board.n_cols →
    (g.board.getCell (r : Int) (c : Int)).hidden = false

/-- Every in-bounds cell of the game is hidden (a fresh board). -/
def Game.AllHidden (g : Game) : Prop :=
  ∀ r : Nat, r < g.board.n_rows → ∀ c : Nat, c < g.board.n_cols →
    (g.board.getCell (r : Int) (c : Int)).hidden = true

/-- No in-bounds cell of the game is flagged. -/
def Game.NoFlags (g : Game) : Prop :=
  ∀ r : Nat, r < g.board.n_rows → ∀ c : Nat, c < g.board.n_cols →
    (g.board.getCell (r : Int) (c : Int)).flagged = false

/-- Every in-bounds cell's value is the count of its mined in-bounds
Moore neighbours — the state `update_neighbours` is supposed to reach. -/
def Game.ValuesCorrect (g : Game) : Prop :=
  ∀ r : Nat, r < g.board.n_rows → ∀ c : Nat, c < g.board.n_cols →
    (g.board.getCell (r : Int) (c : Int)).value = g.board.minedNeighbourCount (r : Int) (c : Int)

instance (g : Game) : Decidable g.AllUnhidden :=
  decidable_of_iff
    (∀ r : Nat, r < g.board.n_rows → ∀ c : Nat, c < g.board.n_cols →
      (g.board.getCell (r : Int) (c : Int)).hidden = false) Iff.rfl

instance (g : Game) : Decidable g.AllHidden :=
  decidable_of_iff
    (∀ r : Nat, r < g.board.n_rows → ∀ c : Nat, c < g.board.n_cols →
      (g.board.getCell (r : Int) (c : Int)).hidden = true) Iff.rfl

instance (g : Game) : Decidable g.NoFlags :=
  decidable_of_iff
    (∀ r : Nat, r < g.board.n_rows → ∀ c : Nat, c < g.board.n_cols →
      (g.board.getCell (r : Int) (c : Int)).flagged = false) Iff.rfl

instance (g : Game) : Decidable g.ValuesCorrect :=
  decidable_of_iff
    (∀ r : Nat, r < g.board.n_rows → ∀ c : Nat, c < g.board.n_cols →
      (g.board.getCell (r : Int) (c : Int)).value =
        g.board.minedNeighbourCount (r : Int) (c : Int)) Iff.rfl

/-! ### The session registry (`GamesManager`) -/

/-- One value of the `GamesManager.games` dict (minesweeper.py lines
29-32): the game plus its `created_at` timestamp (reset on access).
Timestamps are integers handed in explicitly in place of
`datetime.datetime.now()`. -/
structure RegEntry where
  game : Game
  created_at : Int

/-- `GamesManager` (minesweeper.py lines 22-60): the id-to-entry dict
(modelled as an association list with unique keys, looked up by first
match) and the fixed expiration window (3 seconds in the source). -/
structure GamesManager where
  games : List (String × RegEntry)
  game_expiration : Int

/-- `GamesManager.register_game` with the generated uuid passed in as
`game_id` and the clock as `now`. -/
def GamesManager.register_game (m : GamesManager) (game_id : String) (game : Game)
    (now : Int) : GamesManager :=
  { m with games := m.games ++ [(game_id, { game := game, created_at := now })] }

/-- `GamesManager.secs_to_game_expire` (minesweeper.py lines 35-38):
`game_expiration - (now - created_at)`; `none` models the `KeyError` of
`self.games[game_id]` on an absent id. -/
def GamesManager.secs_to_game_expire (m : GamesManager) (game_id : String) (now : Int) :
    Option Int :=
  (m.games.lookup game_id).map (fun e => m.game_expiration - (now - e.created_at))

/-- `GamesManager.unregister_game` (minesweeper.py lines 40-41):
`del self.games[game_id]`.  Python `del` on a missing dict key raises
`KeyError`, hence the `Except`. -/
def GamesManager.unregister_game (m : GamesManager) (game_id : String) :
    Except PyExc GamesManager :=
  if (m.games.lookup game_id).isSome then
    Except.ok { m with games := m.games.filter (fun p => !(p.1 == game_id)) }
  else Except.error PyExc.keyError

/-- `GamesManager.get_game` (minesweeper.py lines 43-48): on a hit,
reset the entry's `created_at` to `now` and return the stored game; on a
miss return `none`.  (The Python truthiness test `if game:` is a hit test:
an entry dict is always non-empty, hence truthy.)  Returns the looked-up
game together with the updated registry. -/
def GamesManager.get_game (m : GamesManager) (game_id : String) (now : Int) :
    Option Game × GamesManager :=
  match m.games.lookup game_id with
  | some e =>
      let updated := m.games.map
        (fun p => if p.1 == game_id then (p.1, { p.2 with created_at := now }) else p)
      (some e.game, { m with games := updated })
  | none => (none, m)

/-- One summary row of `get_nonexpired_games`. -/
structure GameSummary where
  secs_to_expire : Int
  completion : Rat
  id : String
deriving DecidableEq, Repr

/-- `GamesManager.get_nonexpired_games` (minesweeper.py lines 50-60):
a summary for every entry whose seconds-to-expire is positive, in
iteration order.  (The source recomputes the entry by key lookup while
iterating; with unique dict keys that is the iterated entry itself.) -/
def GamesManager.get_nonexpired_games (m : GamesManager) (now : Int) : List GameSummary :=
  m.games.filterMap
    (fun p =>
      let secs := m.game_expiration - (now - p.2.created_at)
      if secs > 0 then
        some { secs_to_expire := secs, completion := p.2.game.completion, id := p.1 }
      else none)

/-! ### Derived specification-level notions -/

/-- Relation packaging what a single `reveal_cell_area` call (or one of
its internal steps) preserves or guarantees about the state: settings and
board shape are unchanged; `mined`, `flagged` and `value` of every cell
are unchanged; unhiding is monotone; `revealed_cells` only grows at the
end; when the final status is still `none` the score is untouched and the
status was `none` before; and whenever the call changed `end_status` it
performed a terminal bulk reveal. -/
def StepOK (g g' : Game) : Prop :=
  g'.settings = g.settings ∧
  g'.board.n_rows = g.board.n_rows ∧
  g'.board.n_cols = g.board.n_cols ∧
  (∀ r c : Int, (g'.cellAt r c).mined = (g.cellAt r c).mined ∧
      (g'.cellAt r c).flagged = (g.cellAt r c).flagged ∧
      (g'.cellAt r c).value = (g.cellAt r c).value) ∧
  (∀ r c : Int, (g.cellAt r c).hidden = false → (g'.cellAt r c).hidden = false) ∧
  (∃ l, g'.revealed_cells = g.revealed_cells ++ l) ∧
  (g'.end_status = none → g'.score = g.score ∧ g.end_status = none) ∧
  (g'.end_status ≠ g.end_status → g'.AllUnhidden)

/-- The connected zero-value region of the board containing `(r0, c0)`:
cells reachable from `(r0, c0)` by steps between 4-orthogonally adjacent
in-bounds cells of value 0. -/
inductive ZeroReach (g : Game) (r0 c0 : Int) : Int → Int → Prop where
  | base : ZeroReach g r0 c0 r0 c0
  | step {r c r' c' : Int} :
      ZeroReach g r0 c0 r c →
      (g.cellAt r c).value = 0 →
      (r', c') ∈ adjacentCoords r c →
      g.board.contains r' c' = true →
      (g.cellAt r' c').value = 0 →
      ZeroReach g r0 c0 r' c'

/-- Game states reachable through the engine interface: a freshly
constructed game (with at least one configured mine, as in the fixed
settings of the source where `n_mines = 50`), closed under in-bounds flag
toggles and under completed `reveal_cell_area` calls. -/
inductive Reachable : Game → Prop where
  | base (n_rows n_cols n_mines : Nat) (ps : List (Int × Int)) (h : 1 ≤ n_mines) :
      Reachable (Game.init n_rows n_cols n_mines ps)
  | toggle {g : Game} (row col : Int) (hin : g.board.contains row col = true)
      (hg : Reachable g) : Reachable (Game.toggle_flag g row col).1
  | reveal {g g' : Game} (fuel : Nat) (row col : Int)
      (h : Game.reveal_cell_area fuel g row col = some g') (hg : Reachable g) :
      Reachable g'

/-- The state invariant maintained by the engine: while the game is
running the score equals the number of flagged mines and is below the
configured mine count; once the game has ended every cell is unhidden. -/
def FullInv (g : Game) : Prop :=
  (g.end_status = none →
    g.score = (g.flaggedMinesCount : Int) ∧ g.score < (g.settings.n_mines : Int)) ∧
  (g.end_status ≠ none → g.AllUnhidden)

/-! ### Concrete states used by counterexamples and witnesses -/

/-- Run one `reveal_cell_area` call with ample fuel for the tiny concrete
boards below, keeping the old state if the fuel ran out (it never does in
these scenarios, as the surrounding proofs show). -/
def runReveal (g : Game) (row col : Int) : Game :=
  (Game.reveal_cell_area 10 g row col).getD g

/-- A 2-by-2 game with a single mine at `(0, 0)` and `n_mines = 1`. -/
def demoGame : Game := Game.init 2 2 1 [(0, 0)]

/-- `demoGame` after revealing the three safe cells: the
all-safe-cells-revealed win fired. -/
def demoWon : Game := runReveal (runReveal (runReveal demoGame 0 1) 1 0) 1 1

/-- `demoGame` after revealing the mine: lost. -/
def demoLost : Game := runReveal demoGame 0 0

/-- `demoLost` after revealing the three safe cells again: the reveal
counter reaches `n_cells - n_mines` and flips the lost game to won. -/
def demoLostWon : Game := runReveal (runReveal (runReveal demoLost 0 1) 1 0) 1 1

/-- `demoGame` after revealing the safe cell `(0, 1)` twice in a row. -/
def demoDoubleReveal : Game := runReveal (runReveal demoGame 0 1) 0 1

/-- A 1-by-5 game with one mine at `(0, 4)`; cells `(0,0)`, `(0,1)`,
`(0,2)` form a connected zero-value region. -/
def stripGame : Game := Game.init 1 5 1 [(0, 4)]

/-- `stripGame` with a flag placed on `(0, 1)`, inside the zero region. -/
def stripFlagged : Game := (Game.toggle_flag stripGame 0 1).1

/-- `stripFlagged` after revealing `(0, 0)`: the flag at `(0, 1)` blocks
the flood fill, leaving `(0, 1)` and `(0, 2)` hidden. -/
def stripRevealed : Game := runReveal stripFlagged 0 0

/-- A registry holding one game registered at time 0, with the fixed
3-second expiration window of the source. -/
def demoManager : GamesManager :=
  { games := [("a", { game := demoGame, created_at := 0 })], game_expiration := 3 }

/-! ## Theorems -/

/-! ### Board lemmas -/

theorem Board.getCell_setCell (b : Board) (row col : Int) (cell : Cell) (r c : Int) :
    (b.setCell row col cell).getCell r c =
      if r = row ∧ c = col then cell else b.getCell r c := rfl

theorem Board.setCell_n_rows (b : Board) (row col : Int) (cell : Cell) :
    (b.setCell row col cell).n_rows = b.n_rows := rfl

theorem Board.setCell_n_cols (b : Board) (row col : Int) (cell : Cell) :
    (b.setCell row col cell).n_cols = b.n_cols := rfl

theorem Board.contains_iff (b : Board) (row col : Int) :
    b.contains row col = true ↔
      0 ≤ row ∧ row < (b.n_rows : Int) ∧ 0 ≤ col ∧ col < (b.n_cols : Int) := by
  have h0 : b.contains row col = true ↔
      (0 ≤ row ∧ row ≤ (b.n_rows : Int) - 1 ∧ 0 ≤ col ∧ col ≤ (b.n_cols : Int) - 1) := by
    unfold Board.contains
    split
    · rename_i h
      exact iff_of_true rfl h
    · rename_i h
      exact iff_of_false Bool.false_ne_true h
  rw [h0]
  omega

theorem Board.contains_eq_of_dims (b b2 : Board) (h1 : b2.n_rows = b.n_rows)
    (h2 : b2.n_cols = b.n_cols) (r c : Int) : b2.contains r c = b.contains r c := by
  simp [Board.contains, h1, h2]

theorem Board.mem_allCoords (b : Board) (r c : Int) :
    (r, c) ∈ b.allCoords ↔ b.contains r c = true := by
  rw [Board.contains_iff]
  simp only [Board.allCoords, List.mem_flatMap, List.mem_map, List.mem_range,
    Prod.mk.injEq]
  constructor
  · rintro ⟨rn, hrn, cn, hcn, heq1, heq2⟩
    omega
  · rintro ⟨h1, h2, h3, h4⟩
    refine ⟨r.toNat, by omega, c.toNat, by omega, by omega, by omega⟩

theorem Board.allCoords_nodup (b : Board) : b.allCoords.Nodup := by
  refine List.nodup_flatMap.2 ⟨?_, ?_⟩
  · intro r _
    have hinj : Function.Injective (fun c : Nat => ((r : Int), (c : Int))) := by
      intro c1 c2 h
      rw [Prod.mk.injEq] at h
      omega
    exact (List.nodup_range b.n_cols).map hinj
  · refine (List.pairwise_lt_range _).imp ?_
    intro r1 r2 hlt p hp1 hp2
    simp only [List.mem_map, List.mem_range] at hp1 hp2
    obtain ⟨c1, _, rfl⟩ := hp1
    obtain ⟨c2, _, heq⟩ := hp2
    rw [Prod.mk.injEq] at heq
    omega

set_option maxHeartbeats 1000000 in
theorem neighboursCoors_nodup (row col : Int) : (neighboursCoors row col).Nodup := by
  simp only [neighboursCoors, List.nodup_cons, List.mem_cons, List.not_mem_nil,
    List.nodup_nil, Prod.mk.injEq, not_or]
  simp only [true_and, and_true, not_false_eq_true]
  omega

set_option maxHeartbeats 1000000 in
theorem mem_neighboursCoors_comm (a1 a2 r c : Int) :
    (a1, a2) ∈ neighboursCoors r c ↔ (r, c) ∈ neighboursCoors a1 a2 := by
  simp only [neighboursCoors, List.mem_cons, List.not_mem_nil, or_false, Prod.mk.injEq]
  omega

theorem Board.mem_get_cell_neighbours (b : Board) (row col : Int) (q : Int × Int) :
    q ∈ b.get_cell_neighbours row col ↔
      q ∈ neighboursCoors row col ∧ b.contains q.1 q.2 = true := by
  simp [Board.get_cell_neighbours, List.mem_filter]

theorem Board.get_cell_neighbours_nodup (b : Board) (row col : Int) :
    (b.get_cell_neighbours row col).Nodup :=
  (neighboursCoors_nodup row col).filter _

theorem Board.get_cell_neighbours_eq_of_dims (b b2 : Board) (h1 : b2.n_rows = b.n_rows)
    (h2 : b2.n_cols = b.n_cols) (r c : Int) :
    b2.get_cell_neighbours r c = b.get_cell_neighbours r c := by
  unfold Board.get_cell_neighbours
  refine List.filter_congr ?_
  intro q _
  exact Board.contains_eq_of_dims b b2 h1 h2 q.1 q.2

/-! ### The effect of `update_neighbours` (claim C2) -/

theorem Board.incValue_getCell (b : Board) (q1 q2 r c : Int) :
    (b.incValue q1 q2).getCell r c =
      { b.getCell r c with
        value := (b.getCell r c).value + (if r = q1 ∧ c = q2 then 1 else 0) } := by
  by_cases h : r = q1 ∧ c = q2
  · obtain ⟨h1, h2⟩ := h
    subst h1; subst h2
    simp [Board.incValue, Board.getCell_setCell]
  · simp [Board.incValue, Board.getCell_setCell, h]

theorem foldl_incValue (L : List (Int × Int)) (b : Board) (r c : Int) :
    (L.foldl (fun acc2 q => acc2.incValue q.1 q.2) b).getCell r c =
      { b.getCell r c with value := (b.getCell r c).value + L.count (r, c) } ∧
    (L.foldl (fun acc2 q => acc2.incValue q.1 q.2) b).n_rows = b.n_rows ∧
    (L.foldl (fun acc2 q => acc2.incValue q.1 q.2) b).n_cols = b.n_cols := by
  induction L generalizing b with
  | nil => simp
  | cons q t ih =>
      simp only [List.foldl_cons]
      obtain ⟨h1, h2, h3⟩ := ih (b.incValue q.1 q.2)
      refine ⟨?_, by rw [h2]; rfl, by rw [h3]; rfl⟩
      rw [h1, Board.incValue_getCell, List.count_cons]
      obtain ⟨q1, q2⟩ := q
      by_cases h : r = q1 ∧ c = q2
      · obtain ⟨e1, e2⟩ := h
        subst e1; subst e2
        simp [Cell.mk.injEq]
        omega
      · have hne : ¬((r, c) = (q1, q2)) := by
          rw [Prod.mk.injEq]; exact h
        simp [Cell.mk.injEq, h, hne]
        omega

theorem update_neighbours_step_getCell (b : Board) (p : Int × Int) (r c : Int) :
    (Board.update_neighbours_step b p).getCell r c =
      { b.getCell r c with
        value := (b.getCell r c).value +
          (if (b.getCell p.1 p.2).mined then (b.get_cell_neighbours p.1 p.2).count (r, c)
           else 0) } ∧
    (Board.update_neighbours_step b p).n_rows = b.n_rows ∧
    (Board.update_neighbours_step b p).n_cols = b.n_cols := by
  unfold Board.update_neighbours_step
  by_cases h : (b.getCell p.1 p.2).mined
  · simp only [h, if_pos, if_true]
    exact foldl_incValue _ b r c
  · simp [h]

theorem foldl_update_neighbours_steps (L : List (Int × Int)) (b : Board) (r c : Int) :
    (L.foldl Board.update_neighbours_step b).getCell r c =
      { b.getCell r c with
        value := (b.getCell r c).value +
          (L.map (fun p =>
            if (b.getCell p.1 p.2).mined then (b.get_cell_neighbours p.1 p.2).count (r, c)
            else 0)).sum } ∧
    (L.foldl Board.update_neighbours_step b).n_rows = b.n_rows ∧
    (L.foldl Board.update_neighbours_step b).n_cols = b.n_cols := by
  induction L generalizing b with
  | nil => simp
  | cons p t ih =>
      simp only [List.foldl_cons, List.map_cons, List.sum_cons]
      obtain ⟨hs, hs2, hs3⟩ := update_neighbours_step_getCell b p r c
      obtain ⟨h1, h2, h3⟩ := ih (Board.update_neighbours_step b p)
      refine ⟨?_, by rw [h2, hs2], by rw [h3, hs3]⟩
      have hmapeq : (t.map (fun q =>
          if ((Board.update_neighbours_step b p).getCell q.1 q.2).mined then
            ((Board.update_neighbours_step b p).get_cell_neighbours q.1 q.2).count (r, c)
          else 0)) =
          (t.map (fun q =>
          if (b.getCell q.1 q.2).mined then (b.get_cell_neighbours q.1 q.2).count (r, c)
          else 0)) := by
        refine List.map_congr_left ?_
        intro q _
        obtain ⟨hq, _, _⟩ := update_neighbours_step_getCell b p q.1 q.2
        rw [hq,
          Board.get_cell_neighbours_eq_of_dims b (Board.update_neighbours_step b p) hs2 hs3]
      rw [h1, hmapeq, hs]
      simp only [Cell.mk.injEq, and_true, true_and]
      omega

theorem count_nodup_eq_ite (l : List (Int × Int)) (a : Int × Int) (d : l.Nodup) :
    l.count a = if a ∈ l then 1 else 0 := by
  induction l with
  | nil => simp
  | cons x t ih =>
      rcases List.nodup_cons.mp d with ⟨hx, ht⟩
      by_cases h : a = x
      · subst h
        simp [List.count_cons, ih ht, hx]
      · simp [List.count_cons, ih ht, h, List.mem_cons]

theorem sum_map_ite_one (L : List (Int × Int)) (P : Int × Int → Bool) :
    (L.map (fun p => if P p then 1 else 0)).sum = L.countP P := by
  induction L with
  | nil => rfl
  | cons p t ih =>
      simp only [List.map_cons, List.sum_cons, List.countP_cons, ih]
      by_cases h : P p <;> simp [h] <;> omega

theorem countP_nodup_eq_of_mem_iff {l1 l2 : List (Int × Int)}
    (h1 : l1.Nodup) (h2 : l2.Nodup) (p1 p2 : Int × Int → Bool)
    (hmem : ∀ x, (x ∈ l1 ∧ p1 x = true) ↔ (x ∈ l2 ∧ p2 x = true)) :
    l1.countP p1 = l2.countP p2 := by
  rw [List.countP_eq_length_filter, List.countP_eq_length_filter,
    ← List.toFinset_card_of_nodup (h1.filter p1), ← List.toFinset_card_of_nodup (h2.filter p2)]
  congr 1
  ext x
  simp only [List.mem_toFinset, List.mem_filter]
  exact hmem x

theorem update_neighbours_static (b : Board) (r c : Int) :
    ((b.update_neighbours).getCell r c).mined = (b.getCell r c).mined ∧
    ((b.update_neighbours).getCell r c).hidden = (b.getCell r c).hidden ∧
    ((b.update_neighbours).getCell r c).flagged = (b.getCell r c).flagged ∧
    (b.update_neighbours).n_rows = b.n_rows ∧ (b.update_neighbours).n_cols = b.n_cols := by
  obtain ⟨h1, h2, h3⟩ := foldl_update_neighbours_steps b.allCoords b r c
  rw [Board.update_neighbours]
  exact ⟨by rw [h1], by rw [h1], by rw [h1], h2, h3⟩

theorem update_neighbours_minedNeighbourCount (b : Board) (r c : Int) :
    (b.update_neighbours).minedNeighbourCount r c = b.minedNeighbourCount r c := by
  unfold Board.minedNeighbourCount
  rw [Board.get_cell_neighbours_eq_of_dims b b.update_neighbours
    (update_neighbours_static b 0 0).2.2.2.1 (update_neighbours_static b 0 0).2.2.2.2]
  congr 1
  refine List.filter_congr ?_
  intro q _
  rw [(update_neighbours_static b q.1 q.2).1]

theorem update_neighbours_value (b : Board) (r c : Int) (hin : b.contains r c = true)
    (hzero : (b.getCell r c).value = 0) :
    ((b.update_neighbours).getCell r c).value = b.minedNeighbourCount r c := by
  obtain ⟨h1, _, _⟩ := foldl_update_neighbours_steps b.allCoords b r c
  rw [Board.update_neighbours, h1]
  show (b.getCell r c).value + _ = _
  rw [hzero, Nat.zero_add]
  have hmap : (b.allCoords.map (fun p =>
      if (b.getCell p.1 p.2).mined then (b.get_cell_neighbours p.1 p.2).count (r, c) else 0)) =
      (b.allCoords.map (fun p =>
      if ((b.getCell p.1 p.2).mined && decide ((r, c) ∈ b.get_cell_neighbours p.1 p.2))
      then 1 else 0)) := by
    refine List.map_congr_left ?_
    intro p _
    rw [count_nodup_eq_ite _ _ (b.get_cell_neighbours_nodup p.1 p.2)]
    by_cases hm : (b.getCell p.1 p.2).mined <;>
      by_cases hmem2 : (r, c) ∈ b.get_cell_neighbours p.1 p.2 <;> simp [hm, hmem2]
  rw [hmap, sum_map_ite_one, Board.minedNeighbourCount, ← List.countP_eq_length_filter]
  refine countP_nodup_eq_of_mem_iff (b.allCoords_nodup) (b.get_cell_neighbours_nodup r c)
    _ _ ?_
  intro x
  obtain ⟨x1, x2⟩ := x
  simp only [Bool.and_eq_true, decide_eq_true_eq, Board.mem_allCoords,
    Board.mem_get_cell_neighbours]
  constructor
  · rintro ⟨hx, hm, hmem2, _⟩
    exact ⟨⟨(mem_neighboursCoors_comm x1 x2 r c).mpr hmem2, hx⟩, hm⟩
  · rintro ⟨⟨hoff, hx⟩, hm⟩
    exact ⟨hx, hm, (mem_neighboursCoors_comm x1 x2 r c).mp hoff, hin⟩

theorem place_mine_getCell (b : Board) (p : Int × Int) (r c : Int) :
    (Game.place_mine b p).getCell r c =
      if r = p.1 ∧ c = p.2 then { b.getCell r c with mined := true } else b.getCell r c := by
  by_cases h : r = p.1 ∧ c = p.2
  · obtain ⟨h1, h2⟩ := h
    subst h1; subst h2
    simp [Game.place_mine, Board.getCell_setCell]
  · simp [Game.place_mine, Board.getCell_setCell, h]

theorem place_mines_static (ps : List (Int × Int)) (b : Board) (r c : Int) :
    ((Game.place_mines b ps).getCell r c).value = (b.getCell r c).value ∧
    ((Game.place_mines b ps).getCell r c).hidden = (b.getCell r c).hidden ∧
    ((Game.place_mines b ps).getCell r c).flagged = (b.getCell r c).flagged ∧
    (Game.place_mines b ps).n_rows = b.n_rows ∧
    (Game.place_mines b ps).n_cols = b.n_cols := by
  induction ps generalizing b with
  | nil => simp [Game.place_mines]
  | cons p t ih =>
      have hstep : Game.place_mines b (p :: t) = Game.place_mines (Game.place_mine b p) t := rfl
      rw [hstep]
      obtain ⟨i1, i2, i3, i4, i5⟩ := ih (Game.place_mine b p)
      refine ⟨?_, ?_, ?_, by rw [i4]; rfl, by rw [i5]; rfl⟩
      · rw [i1, place_mine_getCell]
        by_cases h : r = p.1 ∧ c = p.2 <;> simp [h]
      · rw [i2, place_mine_getCell]
        by_cases h : r = p.1 ∧ c = p.2 <;> simp [h]
      · rw [i3, place_mine_getCell]
        by_cases h : r = p.1 ∧ c = p.2 <;> simp [h]

/-- C2: after `Game` construction (mines placed, then one run of
neighbour-count propagation), every in-bounds cell's `value` equals the
number of mined cells in its in-bounds Moore 8-neighbourhood. -/
theorem C2_values_after_construction (n_rows n_cols n_mines : Nat) (ps : List (Int × Int))
    (r : Nat) (hr : r < n_rows) (c : Nat) (hc : c < n_cols) :
    ((Game.init n_rows n_cols n_mines ps).cellAt (r : Int) (c : Int)).value =
      (Game.init n_rows n_cols n_mines ps).board.minedNeighbourCount (r : Int) (c : Int) := by
  show (((Game.place_mines (Board.init n_rows n_cols) ps).update_neighbours).getCell
      (r : Int) (c : Int)).value =
    ((Game.place_mines (Board.init n_rows n_cols) ps).update_neighbours).minedNeighbourCount
      (r : Int) (c : Int)
  rw [update_neighbours_minedNeighbourCount]
  refine update_neighbours_value _ (r : Int) (c : Int) ?_ ?_
  · rw [Board.contains_iff, (place_mines_static ps _ 0 0).2.2.2.1,
      (place_mines_static ps _ 0 0).2.2.2.2]
    show 0 ≤ (r : Int) ∧ (r : Int) < ((Board.init n_rows n_cols).n_rows : Int) ∧
      0 ≤ (c : Int) ∧ (c : Int) < ((Board.init n_rows n_cols).n_cols : Int)
    simp only [Board.init]
    omega
  · rw [(place_mines_static ps _ (r : Int) (c : Int)).1]
    rfl

/-- C2 witness: on a 2-by-2 board with one mine at `(0, 0)`, the cell
`(0, 1)` ends with value 1, matching its one mined neighbour. -/
theorem C2_values_after_construction_witness :
    0 < 2 ∧ 1 < 2 ∧
    ((Game.init 2 2 1 [(0, 0)]).cellAt ((0 : Nat) : Int) ((1 : Nat) : Int)).value =
      (Game.init 2 2 1 [(0, 0)]).board.minedNeighbourCount ((0 : Nat) : Int) ((1 : Nat) : Int) :=
  ⟨by decide, by decide,
    C2_values_after_construction 2 2 1 [(0, 0)] 0 (by decide) 1 (by decide)⟩

/-! ### Unfolding and preservation lemmas for the flood fill -/

theorem reveal_cell_area_succ (fuel : Nat) (g : Game) (row col : Int) :
    Game.reveal_cell_area (fuel + 1) g row col =
      (if (g.board.getCell row col).flagged then some g
       else if (g.board.getCell row col).mined then
        some (Game.reveal_end_check
          (Game.reveal_all_cells { g with end_status := some Status.lost }))
       else
        (Game.tryRevealAdjacent fuel (g.board.getCell row col).value
            { g with
              board := g.board.setCell row col
                { g.board.getCell row col with hidden := false },
              revealed_cells := g.revealed_cells ++ [(row, col)] } (row - 1) col).bind
          (fun g2 => (Game.tryRevealAdjacent fuel (g.board.getCell row col).value g2
              row (col + 1)).bind
            (fun g3 => (Game.tryRevealAdjacent fuel (g.board.getCell row col).value g3
                (row + 1) col).bind
              (fun g4 => (Game.tryRevealAdjacent fuel (g.board.getCell row col).value g4
                  row (col - 1)).bind
                (fun g5 => some (Game.reveal_end_check g5)))))) := rfl

theorem reveal_all_cells_cellAt (g : Game) (r c : Int) :
    (g.reveal_all_cells).cellAt r c =
      if g.board.contains r c then { g.cellAt r c with hidden := false }
      else g.cellAt r c := rfl

theorem reveal_all_cells_allUnhidden (g : Game) : (g.reveal_all_cells).AllUnhidden := by
  intro r hr c hc
  have hr2 : r < g.board.n_rows := hr
  have hc2 : c < g.board.n_cols := hc
  show ((g.reveal_all_cells).cellAt (r : Int) (c : Int)).hidden = false
  rw [reveal_all_cells_cellAt, if_pos]
  rw [Board.contains_iff]
  omega

theorem allUnhidden_mono {g g2 : Game} (hr : g2.board.n_rows = g.board.n_rows)
    (hc : g2.board.n_cols = g.board.n_cols)
    (hm : ∀ r c : Int, (g.cellAt r c).hidden = false → (g2.cellAt r c).hidden = false)
    (h : g.AllUnhidden) : g2.AllUnhidden := by
  intro r hrow c hcol
  have hrow2 : r < g.board.n_rows := by omega
  have hcol2 : c < g.board.n_cols := by omega
  exact hm (r : Int) (c : Int) (h r hrow2 c hcol2)

theorem stepOK_refl (g : Game) : StepOK g g :=
  ⟨rfl, rfl, rfl, fun _ _ => ⟨rfl, rfl, rfl⟩, fun _ _ h => h,
   ⟨[], (List.append_nil _).symm⟩, fun h => ⟨rfl, h⟩, fun h => absurd rfl h⟩

theorem stepOK_trans {g1 g2 g3 : Game} (a : StepOK g1 g2) (b : StepOK g2 g3) :
    StepOK g1 g3 := by
  obtain ⟨a1, a2, a3, a4, a5, ⟨la, ha⟩, a7, a8⟩ := a
  obtain ⟨b1, b2, b3, b4, b5, ⟨lb, hb⟩, b7, b8⟩ := b
  refine ⟨b1.trans a1, b2.trans a2, b3.trans a3, ?_, ?_, ⟨la ++ lb, ?_⟩, ?_, ?_⟩
  · intro r c
    exact ⟨(b4 r c).1.trans (a4 r c).1, (b4 r c).2.1.trans (a4 r c).2.1,
      (b4 r c).2.2.trans (a4 r c).2.2⟩
  · intro r c h
    exact b5 r c (a5 r c h)
  · rw [hb, ha, List.append_assoc]
  · intro h
    obtain ⟨s1, s2⟩ := b7 h
    obtain ⟨t1, t2⟩ := a7 s2
    exact ⟨s1.trans t1, t2⟩
  · intro h
    by_cases h2 : g3.end_status = g2.end_status
    · rw [h2] at h
      exact allUnhidden_mono b2 b3 b5 (a8 h)
    · exact b8 h2

theorem stepOK_unhide (g : Game) (row col : Int) :
    StepOK g { g with
      board := g.board.setCell row col { g.board.getCell row col with hidden := false },
      revealed_cells := g.revealed_cells ++ [(row, col)] } := by
  refine ⟨rfl, rfl, rfl, ?_, ?_, ⟨[(row, col)], rfl⟩, fun h => ⟨rfl, h⟩,
    fun h => absurd rfl h⟩
  · intro r c
    by_cases h : r = row ∧ c = col <;>
      simp [Game.cellAt, Board.getCell_setCell, h]
  · intro r c hh
    by_cases h : r = row ∧ c = col
    · simp [Game.cellAt, Board.getCell_setCell, h]
    · simp only [Game.cellAt, Board.getCell_setCell, h, if_neg, if_false]
      simp only [Game.cellAt] at hh
      exact hh

theorem stepOK_reveal_all_generic (g g0 : Game) (hb : g0.board = g.board)
    (hset : g0.settings = g.settings) (hrev : g0.revealed_cells = g.revealed_cells)
    (hstat : ∃ st, g0.end_status = some st) :
    StepOK g g0.reveal_all_cells := by
  obtain ⟨st, hst⟩ := hstat
  refine ⟨hset,
    by rw [show (g0.reveal_all_cells).board.n_rows = g0.board.n_rows from rfl, hb],
    by rw [show (g0.reveal_all_cells).board.n_cols = g0.board.n_cols from rfl, hb],
    ?_, ?_,
    ⟨[], by rw [show (g0.reveal_all_cells).revealed_cells = g0.revealed_cells from rfl,
      hrev, List.append_nil]⟩, ?_, ?_⟩
  · intro r c
    rw [reveal_all_cells_cellAt]
    by_cases h : g0.board.contains r c = true
    · rw [if_pos h]
      simp [Game.cellAt, hb]
    · rw [if_neg h]
      simp [Game.cellAt, hb]
  · intro r c hh
    rw [reveal_all_cells_cellAt]
    by_cases h : g0.board.contains r c = true
    · rw [if_pos h]
    · rw [if_neg h]
      show (g0.cellAt r c).hidden = false
      rw [show g0.cellAt r c = g.cellAt r c from by simp [Game.cellAt, hb]]
      exact hh
  · intro h
    rw [show (g0.reveal_all_cells).end_status = g0.end_status from rfl, hst] at h
    cases h
  · intro _
    exact reveal_all_cells_allUnhidden g0

theorem stepOK_reveal_end_check (g : Game) : StepOK g (Game.reveal_end_check g) := by
  unfold Game.reveal_end_check
  split
  · have hcs : ({ g with score := (g.settings.n_mines : Int) } : Game).check_score
        = Game.reveal_all_cells
            { g with score := (g.settings.n_mines : Int),
                     end_status := some Status.won } := by
      unfold Game.check_score
      rw [if_pos rfl]
    rw [hcs]
    exact stepOK_reveal_all_generic g _ rfl rfl rfl ⟨Status.won, rfl⟩
  · exact stepOK_refl g

theorem tryRevealAdjacent_stepOK {fuel : Nat}
    (ih : ∀ (g : Game) (row col : Int) (g' : Game),
      Game.reveal_cell_area fuel g row col = some g' → StepOK g g')
    (v : Nat) (g : Game) (row col : Int) (g' : Game)
    (h : Game.tryRevealAdjacent fuel v g row col = some g') : StepOK g g' := by
  unfold Game.tryRevealAdjacent at h
  split at h
  · split at h
    · exact ih _ _ _ _ h
    · cases h
      exact stepOK_refl _
  · cases h
    exact stepOK_refl _

/-- Master preservation lemma: a completed `reveal_cell_area` call relates
its pre- and post-state by `StepOK`. -/
theorem reveal_stepOK : ∀ (fuel : Nat) (g : Game) (row col : Int) (g' : Game),
    Game.reveal_cell_area fuel g row col = some g' → StepOK g g' := by
  intro fuel
  induction fuel with
  | zero =>
      intro g row col g' h
      simp [Game.reveal_cell_area] at h
  | succ fuel ih =>
      intro g row col g' h
      rw [reveal_cell_area_succ] at h
      by_cases hf : (g.board.getCell row col).flagged = true
      · rw [if_pos hf] at h
        cases h
        exact stepOK_refl g
      · rw [if_neg hf] at h
        by_cases hm : (g.board.getCell row col).mined = true
        · rw [if_pos hm] at h
          cases h
          exact stepOK_trans
            (stepOK_reveal_all_generic g { g with end_status := some Status.lost }
              rfl rfl rfl ⟨Status.lost, rfl⟩)
            (stepOK_reveal_end_check _)
        · rw [if_neg hm] at h
          cases h2 : Game.tryRevealAdjacent fuel (g.board.getCell row col).value
              { g with
                board := g.board.setCell row col
                  { g.board.getCell row col with hidden := false },
                revealed_cells := g.revealed_cells ++ [(row, col)] } (row - 1) col with
          | none => rw [h2] at h; simp at h
          | some g2 =>
            rw [h2] at h
            simp only [Option.some_bind] at h
            cases h3 : Game.tryRevealAdjacent fuel (g.board.getCell row col).value g2
                row (col + 1) with
            | none => rw [h3] at h; simp at h
            | some g3 =>
              rw [h3] at h
              simp only [Option.some_bind] at h
              cases h4 : Game.tryRevealAdjacent fuel (g.board.getCell row col).value g3
                  (row + 1) col with
              | none => rw [h4] at h; simp at h
              | some g4 =>
                rw [h4] at h
                simp only [Option.some_bind] at h
                cases h5 : Game.tryRevealAdjacent fuel (g.board.getCell row col).value g4
                    row (col - 1) with
                | none => rw [h5] at h; simp at h
                | some g5 =>
                  rw [h5] at h
                  simp only [Option.some_bind, Option.some.injEq] at h
                  rw [← h]
                  exact stepOK_trans (stepOK_unhide g row col)
                    (stepOK_trans (tryRevealAdjacent_stepOK ih _ _ _ _ _ h2)
                      (stepOK_trans (tryRevealAdjacent_stepOK ih _ _ _ _ _ h3)
                        (stepOK_trans (tryRevealAdjacent_stepOK ih _ _ _ _ _ h4)
                          (stepOK_trans (tryRevealAdjacent_stepOK ih _ _ _ _ _ h5)
                            (stepOK_reveal_end_check g5)))))

theorem stepOK_hidden_false {g g' : Game} (s : StepOK g g') {r c : Int}
    (h : (g.cellAt r c).hidden = false) : (g'.cellAt r c).hidden = false :=
  s.2.2.2.2.1 r c h

/-- A completed reveal of an unflagged, unmined cell leaves that cell
unhidden. -/
theorem reveal_progress (fuel : Nat) (g : Game) (row col : Int) (g' : Game)
    (h : Game.reveal_cell_area fuel g row col = some g')
    (hf : (g.cellAt row col).flagged = false)
    (hm : (g.cellAt row col).mined = false) :
    (g'.cellAt row col).hidden = false := by
  simp only [Game.cellAt] at hf hm
  cases fuel with
  | zero => simp [Game.reveal_cell_area] at h
  | succ fuel =>
      rw [reveal_cell_area_succ] at h
      rw [if_neg (by simp [hf]), if_neg (by simp [hm])] at h
      have hg1 : (({ g with
          board := g.board.setCell row col { g.board.getCell row col with hidden := false },
          revealed_cells := g.revealed_cells ++ [(row, col)] } : Game).cellAt row col).hidden
          = false := by
        simp [Game.cellAt, Board.getCell_setCell]
      cases h2 : Game.tryRevealAdjacent fuel (g.board.getCell row col).value
          { g with
            board := g.board.setCell row col
              { g.board.getCell row col with hidden := false },
            revealed_cells := g.revealed_cells ++ [(row, col)] } (row - 1) col with
      | none => rw [h2] at h; simp at h
      | some g2 =>
        rw [h2] at h
        simp only [Option.some_bind] at h
        have hg2 := stepOK_hidden_false
          (tryRevealAdjacent_stepOK (reveal_stepOK fuel) _ _ _ _ _ h2) hg1
        cases h3 : Game.tryRevealAdjacent fuel (g.board.getCell row col).value g2
            row (col + 1) with
        | none => rw [h3] at h; simp at h
        | some g3 =>
          rw [h3] at h
          simp only [Option.some_bind] at h
          have hg3 := stepOK_hidden_false
            (tryRevealAdjacent_stepOK (reveal_stepOK fuel) _ _ _ _ _ h3) hg2
          cases h4 : Game.tryRevealAdjacent fuel (g.board.getCell row col).value g3
              (row + 1) col with
          | none => rw [h4] at h; simp at h
          | some g4 =>
            rw [h4] at h
            simp only [Option.some_bind] at h
            have hg4 := stepOK_hidden_false
              (tryRevealAdjacent_stepOK (reveal_stepOK fuel) _ _ _ _ _ h4) hg3
            cases h5 : Game.tryRevealAdjacent fuel (g.board.getCell row col).value g4
                row (col - 1) with
            | none => rw [h5] at h; simp at h
            | some g5 =>
              rw [h5] at h
              simp only [Option.some_bind, Option.some.injEq] at h
              have hg5 := stepOK_hidden_false
                (tryRevealAdjacent_stepOK (reveal_stepOK fuel) _ _ _ _ _ h5) hg4
              rw [← h]
              exact stepOK_hidden_false (stepOK_reveal_end_check g5) hg5

/-- Revealing an unflagged mined cell computes to the lost branch followed
by the final check, for every fuel. -/
theorem reveal_mined_eq (fuel : Nat) (g : Game) (row col : Int)
    (hf : (g.cellAt row col).flagged = false)
    (hm : (g.cellAt row col).mined = true) :
    Game.reveal_cell_area (fuel + 1) g row col =
      some (Game.reveal_end_check
        (Game.reveal_all_cells { g with end_status := some Status.lost })) := by
  simp only [Game.cellAt] at hf hm
  rw [reveal_cell_area_succ, if_neg (by simp [hf]), if_pos hm]

theorem tryRevealAdjacent_nonzero (fuel v : Nat) (g : Game) (row col : Int)
    (hv : v ≠ 0) : Game.tryRevealAdjacent fuel v g row col = some g := by
  unfold Game.tryRevealAdjacent
  split
  · rw [if_neg (by simp [hv])]
  · rfl

/-- Revealing an unflagged, unmined cell of non-zero value: the cell is
unhidden and appended, no neighbour is entered, and the final check runs. -/
theorem reveal_nonzero_eq (fuel : Nat) (g : Game) (row col : Int)
    (hf : (g.cellAt row col).flagged = false)
    (hm : (g.cellAt row col).mined = false)
    (hv : (g.cellAt row col).value ≠ 0) :
    Game.reveal_cell_area (fuel + 1) g row col =
      some (Game.reveal_end_check { g with
        board := g.board.setCell row col { g.board.getCell row col with hidden := false },
        revealed_cells := g.revealed_cells ++ [(row, col)] }) := by
  simp only [Game.cellAt] at hf hm hv
  rw [reveal_cell_area_succ, if_neg (by simp [hf]), if_neg (by simp [hm]),
    tryRevealAdjacent_nonzero _ _ _ _ _ hv, Option.some_bind,
    tryRevealAdjacent_nonzero _ _ _ _ _ hv, Option.some_bind,
    tryRevealAdjacent_nonzero _ _ _ _ _ hv, Option.some_bind,
    tryRevealAdjacent_nonzero _ _ _ _ _ hv, Option.some_bind]

theorem reveal_end_check_cases (g : Game) :
    ((g.board.n_cells : Int) - g.revealed_cells.length = (g.settings.n_mines : Int) ∧
      Game.reveal_end_check g =
        Game.reveal_all_cells
          { g with score := (g.settings.n_mines : Int),
                   end_status := some Status.won }) ∨
    (¬((g.board.n_cells : Int) - g.revealed_cells.length = (g.settings.n_mines : Int)) ∧
      Game.reveal_end_check g = g) := by
  unfold Game.reveal_end_check
  split
  · rename_i hcond
    left
    refine ⟨hcond, ?_⟩
    unfold Game.check_score
    rw [if_pos rfl]
  · rename_i hcond
    right
    exact ⟨hcond, rfl⟩

theorem reveal_end_check_revealed (g : Game) :
    (Game.reveal_end_check g).revealed_cells = g.revealed_cells := by
  rcases reveal_end_check_cases g with ⟨_, h⟩ | ⟨_, h⟩ <;> rw [h] <;> rfl

theorem toggle_flag_not_hidden (g : Game) (row col : Int)
    (h : (g.cellAt row col).hidden = false) :
    Game.toggle_flag g row col = (g, some cannotFlagMsg) := by
  simp only [Game.cellAt] at h
  simp only [Game.toggle_flag]
  rw [if_pos h]

/-! ### C3 — revealing a mined cell -/

/-- C3 counterexample: `demoWon` is a reachable game (three safe reveals
won it) whose cell `(0, 0)` is mined and unflagged; revealing it does not
leave `end_status = lost` — the all-safe-revealed check still runs after
the mined branch and flips the status to `won`. -/
theorem C3_counterexample :
    (demoWon.cellAt 0 0).mined = true ∧
    (demoWon.cellAt 0 0).flagged = false ∧
    (Game.reveal_cell_area 10 demoWon 0 0).isSome = true ∧
    ((Game.reveal_cell_area 10 demoWon 0 0).getD demoWon).end_status = some Status.won ∧
    ((Game.reveal_cell_area 10 demoWon 0 0).getD demoWon).end_status ≠ some Status.lost := by
  refine ⟨by decide, by decide, by decide, by decide, by decide⟩

/-- C3 (amended): revealing an unflagged mined cell unhides every cell,
performs no flood-fill propagation (`revealed_cells` is unchanged and the
result is the same at every fuel), and sets `end_status = lost` — except
that the all-safe-revealed check of lines 148-151 still runs afterwards,
so when `n_cells - |revealed_cells| = n_mines` the status ends as `won`
instead. -/
theorem C3_reveal_mined_amended (g : Game) (row col : Int)
    (hf : (g.cellAt row col).flagged = false)
    (hm : (g.cellAt row col).mined = true) :
    ∃ g' : Game,
      (∀ fuel : Nat, Game.reveal_cell_area (fuel + 1) g row col = some g') ∧
      g'.AllUnhidden ∧
      g'.revealed_cells = g.revealed_cells ∧
      g'.end_status =
        (if (g.board.n_cells : Int) - g.revealed_cells.length = (g.settings.n_mines : Int)
         then some Status.won else some Status.lost) := by
  refine ⟨Game.reveal_end_check
      (Game.reveal_all_cells { g with end_status := some Status.lost }),
    fun fuel => reveal_mined_eq fuel g row col hf hm, ?_, ?_, ?_⟩
  · rcases reveal_end_check_cases
        (Game.reveal_all_cells { g with end_status := some Status.lost }) with
      ⟨_, h⟩ | ⟨_, h⟩ <;> rw [h]
    · exact reveal_all_cells_allUnhidden _
    · exact reveal_all_cells_allUnhidden _
  · rw [reveal_end_check_revealed]
    rfl
  · rcases reveal_end_check_cases
        (Game.reveal_all_cells { g with end_status := some Status.lost }) with
      ⟨hc, h⟩ | ⟨hc, h⟩
    · have hc2 : (g.board.n_cells : Int) - g.revealed_cells.length
          = (g.settings.n_mines : Int) := hc
      rw [h, if_pos hc2]
      rfl
    · have hc2 : ¬((g.board.n_cells : Int) - g.revealed_cells.length
          = (g.settings.n_mines : Int)) := hc
      rw [h, if_neg hc2]
      rfl

/-- C3 witness: revealing the mine of the fresh `demoGame`. -/
theorem C3_reveal_mined_amended_witness :
    (demoGame.cellAt 0 0).flagged = false ∧
    (demoGame.cellAt 0 0).mined = true ∧
    (∃ g' : Game,
      (∀ fuel : Nat, Game.reveal_cell_area (fuel + 1) demoGame 0 0 = some g') ∧
      g'.AllUnhidden ∧
      g'.revealed_cells = demoGame.revealed_cells ∧
      g'.end_status =
        (if (demoGame.board.n_cells : Int) - demoGame.revealed_cells.length =
            (demoGame.settings.n_mines : Int)
         then some Status.won else some Status.lost)) :=
  ⟨by decide, by decide, C3_reveal_mined_amended demoGame 0 0 (by decide) (by decide)⟩

/-! ### C4 — end_status transitions -/

/-- C4 counterexample: `demoLost` has `end_status = lost`; three further
reveal operations (each succeeding) drive the reveal counter to
`n_cells - n_mines` and flip the status to `won` — a second transition. -/
theorem C4_counterexample :
    demoLost.end_status = some Status.lost ∧
    (Game.reveal_cell_area 10 demoLost 0 1).isSome = true ∧
    (runReveal demoLost 0 1).end_status = some Status.lost ∧
    (Game.reveal_cell_area 10 (runReveal demoLost 0 1) 1 0).isSome = true ∧
    (runReveal (runReveal demoLost 0 1) 1 0).end_status = some Status.lost ∧
    (Game.reveal_cell_area 10 (runReveal (runReveal demoLost 0 1) 1 0) 1 1).isSome = true ∧
    demoLostWon.end_status = some Status.won := by
  refine ⟨by decide, by decide, by decide, by decide, by decide, by decide, by decide⟩

/-- C4 (amended): `end_status` starts as `none` on a fresh game, and once
the game has ended — a state in which every cell is unhidden, since both
terminal transitions bulk-reveal — `toggle_flag` is rejected and changes
nothing; `reveal_cell_area`, however, can still mutate an ended game and
move `end_status` from `lost` to `won` (see the counterexample). -/
theorem C4_status_amended :
    (∀ (n_rows n_cols n_mines : Nat) (ps : List (Int × Int)),
      (Game.init n_rows n_cols n_mines ps).end_status = none) ∧
    (∀ (g : Game) (row col : Int), g.end_status ≠ none → g.AllUnhidden →
      g.board.contains row col = true →
      Game.toggle_flag g row col = (g, some cannotFlagMsg)) := by
  constructor
  · intro _ _ _ _
    rfl
  · intro g row col _ hall hin
    apply toggle_flag_not_hidden
    rw [Board.contains_iff] at hin
    have h := hall row.toNat (by omega) col.toNat (by omega)
    rw [show ((row.toNat : Nat) : Int) = row from by omega,
      show ((col.toNat : Nat) : Int) = col from by omega] at h
    exact h

/-- C4 witness: the fresh game starts at `none`, and toggling on the
ended `demoLost` is rejected without a state change. -/
theorem C4_status_amended_witness :
    demoGame.end_status = none ∧
    (demoLost.end_status ≠ none ∧ demoLost.AllUnhidden ∧
      demoLost.board.contains 0 1 = true ∧
      Game.toggle_flag demoLost 0 1 = (demoLost, some cannotFlagMsg)) :=
  ⟨C4_status_amended.1 2 2 1 [(0, 0)],
   by decide, by decide, by decide,
   C4_status_amended.2 demoLost 0 1 (by decide) (by decide) (by decide)⟩

/-! ### C6 — revealed_cells bookkeeping -/

/-- C6 counterexample: revealing the already-revealed cell `(0, 1)` of
`runReveal demoGame 0 1` appends it to `revealed_cells` a second time. -/
theorem C6_counterexample :
    (runReveal demoGame 0 1).revealed_cells.count (0, 1) = 1 ∧
    (Game.reveal_cell_area 10 (runReveal demoGame 0 1) 0 1).isSome = true ∧
    demoDoubleReveal.revealed_cells.count (0, 1) = 2 := by
  refine ⟨by decide, by decide, by decide⟩

/-- C6 (amended): `reveal_cell_area` appends the processed cell to
`revealed_cells` unconditionally — also when the cell is already recorded
there (shown for cells of non-zero value, where no recursion happens, so
exactly one entry is appended per call). -/
theorem C6_append_unconditional (g : Game) (row col : Int)
    (hf : (g.cellAt row col).flagged = false)
    (hm : (g.cellAt row col).mined = false)
    (hv : (g.cellAt row col).value ≠ 0) :
    ∃ g' : Game,
      (∀ fuel : Nat, Game.reveal_cell_area (fuel + 1) g row col = some g') ∧
      g'.revealed_cells = g.revealed_cells ++ [(row, col)] := by
  refine ⟨Game.reveal_end_check { g with
      board := g.board.setCell row col { g.board.getCell row col with hidden := false },
      revealed_cells := g.revealed_cells ++ [(row, col)] },
    fun fuel => reveal_nonzero_eq fuel g row col hf hm hv, ?_⟩
  rw [reveal_end_check_revealed]

/-- C6 witness: the safe cell `(0, 1)` of `demoGame` has value 1; a
reveal appends it regardless of prior membership. -/
theorem C6_append_unconditional_witness :
    (demoGame.cellAt 0 1).flagged = false ∧
    (demoGame.cellAt 0 1).mined = false ∧
    (demoGame.cellAt 0 1).value ≠ 0 ∧
    (∃ g' : Game,
      (∀ fuel : Nat, Game.reveal_cell_area (fuel + 1) demoGame 0 1 = some g') ∧
      g'.revealed_cells = demoGame.revealed_cells ++ [(0, 1)]) :=
  ⟨by decide, by decide, by decide,
   C6_append_unconditional demoGame 0 1 (by decide) (by decide) (by decide)⟩

/-! ### C7 — the score invariant -/

theorem countP_update_mem : ∀ (l : List (Int × Int)), l.Nodup →
    ∀ x ∈ l, ∀ (p q : Int × Int → Bool), (∀ y ∈ l, y ≠ x → p y = q y) →
    l.countP q + (if p x then 1 else 0) = l.countP p + (if q x then 1 else 0) := by
  intro l
  induction l with
  | nil =>
      intro _ x hx
      cases hx
  | cons a t ih =>
      intro hnd x hx p q hagree
      rcases List.mem_cons.mp hx with rfl | hxt
      · rw [List.countP_cons, List.countP_cons]
        have ht : t.countP p = t.countP q := by
          refine List.countP_congr ?_
          intro b hb
          have hbx : b ≠ x := by
            intro he
            subst he
            exact (List.nodup_cons.mp hnd).1 hb
          rw [hagree b (List.mem_cons_of_mem _ hb) hbx]
        rw [ht]
        omega
      · rw [List.countP_cons, List.countP_cons]
        have hax : a ≠ x := by
          intro he
          subst he
          exact (List.nodup_cons.mp hnd).1 hxt
        have hpa : p a = q a := hagree a (List.mem_cons_self a t) hax
        have hrec := ih (List.nodup_cons.mp hnd).2 x hxt p q
          (fun y hy hyx => hagree y (List.mem_cons_of_mem _ hy) hyx)
        rw [hpa]
        omega

theorem flaggedMinesCount_setCell (g : Game) (row col : Int)
    (hin : g.board.contains row col = true) (cell2 : Cell) (d1 d2 : Nat)
    (h1 : (if (g.board.getCell row col).flagged && (g.board.getCell row col).mined
      then 1 else 0) = d1)
    (h2 : (if cell2.flagged && cell2.mined then 1 else 0) = d2) :
    ({ g with board := g.board.setCell row col cell2 } : Game).flaggedMinesCount + d1 =
    g.flaggedMinesCount + d2 := by
  have hx : (row, col) ∈ g.board.allCoords := (Board.mem_allCoords _ row col).mpr hin
  have hmain := countP_update_mem g.board.allCoords (g.board.allCoords_nodup) (row, col) hx
    (fun p => (g.board.getCell p.1 p.2).flagged && (g.board.getCell p.1 p.2).mined)
    (fun p => ((g.board.setCell row col cell2).getCell p.1 p.2).flagged &&
              ((g.board.setCell row col cell2).getCell p.1 p.2).mined)
    (by
      intro y _ hne
      have hne2 : ¬(y.1 = row ∧ y.2 = col) := by
        rintro ⟨e1, e2⟩
        exact hne (Prod.ext_iff.mpr ⟨e1, e2⟩)
      simp only [Board.getCell_setCell, hne2, if_neg, if_false])
  dsimp only at hmain
  have hcell : (g.board.setCell row col cell2).getCell row col = cell2 := by
    rw [Board.getCell_setCell, if_pos ⟨rfl, rfl⟩]
  rw [hcell] at hmain
  rw [← h1, ← h2]
  exact hmain

theorem flaggedMinesCount_eq_of_cells {g g2 : Game}
    (s2 : g2.board.n_rows = g.board.n_rows) (s3 : g2.board.n_cols = g.board.n_cols)
    (s4 : ∀ r c : Int, (g2.cellAt r c).mined = (g.cellAt r c).mined ∧
      (g2.cellAt r c).flagged = (g.cellAt r c).flagged ∧
      (g2.cellAt r c).value = (g.cellAt r c).value) :
    g2.flaggedMinesCount = g.flaggedMinesCount := by
  unfold Game.flaggedMinesCount
  have hco : g2.board.allCoords = g.board.allCoords := by
    unfold Board.allCoords
    rw [s2, s3]
  rw [hco]
  refine List.countP_congr ?_
  intro p _
  have h1 := (s4 p.1 p.2).1
  have h2 := (s4 p.1 p.2).2.1
  simp only [Game.cellAt] at h1 h2
  rw [h1, h2]

theorem flaggedMinesCount_init (n_rows n_cols n_mines : Nat) (ps : List (Int × Int)) :
    (Game.init n_rows n_cols n_mines ps).flaggedMinesCount = 0 := by
  unfold Game.flaggedMinesCount
  rw [List.countP_eq_zero]
  intro p _
  have h1 := (update_neighbours_static (Game.place_mines (Board.init n_rows n_cols) ps)
    p.1 p.2).2.2.1
  have h2 := (place_mines_static ps (Board.init n_rows n_cols) p.1 p.2).2.2.1
  have hflag : ((Game.init n_rows n_cols n_mines ps).board.getCell p.1 p.2).flagged
      = false := by
    show (((Game.place_mines (Board.init n_rows n_cols) ps).update_neighbours).getCell
        p.1 p.2).flagged = false
    rw [h1, h2]
    rfl
  rw [hflag]
  simp

theorem fullInv_init (n_rows n_cols n_mines : Nat) (ps : List (Int × Int))
    (h : 1 ≤ n_mines) : FullInv (Game.init n_rows n_cols n_mines ps) := by
  constructor
  · intro _
    constructor
    · rw [flaggedMinesCount_init]
      rfl
    · show (0 : Int) < ((n_mines : Nat) : Int)
      omega
  · intro hend
    exact absurd rfl hend

theorem flaggedMinesCount_board (g0 g : Game) (hb : g0.board = g.board) :
    g0.flaggedMinesCount = g.flaggedMinesCount := by
  unfold Game.flaggedMinesCount
  rw [hb]

/-- `toggle_flag` on a hidden flagged cell: unflag, decrement the score
when the cell is mined, no win check. -/
theorem toggle_flag_hidden_flagged (g : Game) (row col : Int)
    (hh : (g.board.getCell row col).hidden = true)
    (hf : (g.board.getCell row col).flagged = true) :
    Game.toggle_flag g row col =
      ((if (g.board.getCell row col).mined = true then
          { g with
            board := g.board.setCell row col
              { g.board.getCell row col with flagged := false },
            score := g.score - 1 }
        else
          { g with
            board := g.board.setCell row col
              { g.board.getCell row col with flagged := false } }), none) := by
  simp only [Game.toggle_flag]
  rw [if_neg (by simp [hh]), if_pos hf]

/-- `toggle_flag` on a hidden unflagged cell: flag, increment the score
when the cell is mined, then run the win check. -/
theorem toggle_flag_hidden_unflagged (g : Game) (row col : Int)
    (hh : (g.board.getCell row col).hidden = true)
    (hf : (g.board.getCell row col).flagged = false) :
    Game.toggle_flag g row col =
      ((if (g.board.getCell row col).mined = true then
          ({ g with
            board := g.board.setCell row col
              { g.board.getCell row col with flagged := true },
            score := g.score + 1 } : Game).check_score
        else
          ({ g with
            board := g.board.setCell row col
              { g.board.getCell row col with flagged := true } } : Game).check_score),
        none) := by
  simp only [Game.toggle_flag]
  rw [if_neg (by simp [hh]), if_neg (by simp [hf])]
  by_cases hm : (g.board.getCell row col).mined = true
  · rw [if_pos hm, if_pos hm]
  · rw [if_neg hm, if_neg hm]

theorem check_score_no_win (g : Game) (h : ¬(g.score = (g.settings.n_mines : Int))) :
    g.check_score = g := by
  unfold Game.check_score
  rw [if_neg h]

theorem fullInv_no_check (g0 : Game) (hstat : g0.end_status = none)
    (hsc : g0.score = (g0.flaggedMinesCount : Int))
    (hlt : g0.score < (g0.settings.n_mines : Int)) : FullInv g0 :=
  ⟨fun _ => ⟨hsc, hlt⟩, fun hend => absurd hstat hend⟩

theorem fullInv_check_score (g0 : Game) (hstat : g0.end_status = none)
    (hsc : g0.score = (g0.flaggedMinesCount : Int))
    (hle : g0.score ≤ (g0.settings.n_mines : Int)) : FullInv g0.check_score := by
  unfold Game.check_score
  split
  · constructor
    · intro hend
      exact Option.noConfusion (show some Status.won = (none : Option Status) from hend)
    · intro _
      exact reveal_all_cells_allUnhidden _
  · rename_i hwin
    exact fullInv_no_check g0 hstat hsc (lt_of_le_of_ne hle hwin)

theorem fullInv_toggle (g : Game) (row col : Int)
    (hin : g.board.contains row col = true) (hI : FullInv g) :
    FullInv (Game.toggle_flag g row col).1 := by
  by_cases hh : (g.cellAt row col).hidden = false
  · rw [toggle_flag_not_hidden g row col hh]
    exact hI
  · have hh2 : (g.board.getCell row col).hidden = true := by
      simp only [Game.cellAt] at hh
      cases hhc : (g.board.getCell row col).hidden
      · exact absurd hhc hh
      · rfl
    by_cases hstat : g.end_status = none
    case neg =>
      exfalso
      have hall := hI.2 hstat
      rw [Board.contains_iff] at hin
      have hu := hall row.toNat (by omega) col.toNat (by omega)
      rw [show ((row.toNat : Nat) : Int) = row from by omega,
        show ((col.toNat : Nat) : Int) = col from by omega] at hu
      rw [hu] at hh2
      cases hh2
    case pos =>
      obtain ⟨hsc, hlt⟩ := hI.1 hstat
      by_cases hfl : (g.board.getCell row col).flagged = true
      · rw [toggle_flag_hidden_flagged g row col hh2 hfl]
        by_cases hm : (g.board.getCell row col).mined = true
        · rw [if_pos hm]
          have hcnt := flaggedMinesCount_setCell g row col hin
            { g.board.getCell row col with flagged := false } 1 0
            (by simp [hfl, hm]) (by simp)
          show FullInv ({ g with
            board := g.board.setCell row col
              { g.board.getCell row col with flagged := false },
            score := g.score - 1 } : Game)
          refine fullInv_no_check _ hstat ?_ ?_
          · have hcb : ({ g with
                board := g.board.setCell row col
                  { g.board.getCell row col with flagged := false },
                score := g.score - 1 } : Game).flaggedMinesCount =
              ({ g with
                board := g.board.setCell row col
                  { g.board.getCell row col with flagged := false } } : Game).flaggedMinesCount :=
              flaggedMinesCount_board _ _ rfl
            show g.score - 1 = _
            rw [hcb]
            omega
          · show g.score - 1 < ((g.settings.n_mines : Nat) : Int)
            omega
        · rw [if_neg hm]
          have hm2 : (g.board.getCell row col).mined = false := by
            cases hmc : (g.board.getCell row col).mined
            · rfl
            · exact absurd hmc hm
          have hcnt := flaggedMinesCount_setCell g row col hin
            { g.board.getCell row col with flagged := false } 0 0
            (by simp [hm2]) (by simp)
          show FullInv ({ g with
            board := g.board.setCell row col
              { g.board.getCell row col with flagged := false } } : Game)
          refine fullInv_no_check _ hstat ?_ ?_
          · show g.score = _
            omega
          · show g.score < ((g.settings.n_mines : Nat) : Int)
            omega
      · have hfl2 : (g.board.getCell row col).flagged = false := by
          cases hfc : (g.board.getCell row col).flagged
          · rfl
          · exact absurd hfc hfl
        rw [toggle_flag_hidden_unflagged g row col hh2 hfl2]
        by_cases hm : (g.board.getCell row col).mined = true
        · rw [if_pos hm]
          have hcnt := flaggedMinesCount_setCell g row col hin
            { g.board.getCell row col with flagged := true } 0 1
            (by simp [hfl2]) (by simp [hm])
          show FullInv (({ g with
            board := g.board.setCell row col
              { g.board.getCell row col with flagged := true },
            score := g.score + 1 } : Game).check_score)
          refine fullInv_check_score _ hstat ?_ ?_
          · have hcb : ({ g with
                board := g.board.setCell row col
                  { g.board.getCell row col with flagged := true },
                score := g.score + 1 } : Game).flaggedMinesCount =
              ({ g with
                board := g.board.setCell row col
                  { g.board.getCell row col with flagged := true } } : Game).flaggedMinesCount :=
              flaggedMinesCount_board _ _ rfl
            show g.score + 1 = _
            rw [hcb]
            omega
          · show g.score + 1 ≤ ((g.settings.n_mines : Nat) : Int)
            omega
        · rw [if_neg hm]
          have hm2 : (g.board.getCell row col).mined = false := by
            cases hmc : (g.board.getCell row col).mined
            · rfl
            · exact absurd hmc hm
          have hcnt := flaggedMinesCount_setCell g row col hin
            { g.board.getCell row col with flagged := true } 0 0
            (by simp [hfl2]) (by simp [hm2])
          show FullInv (({ g with
            board := g.board.setCell row col
              { g.board.getCell row col with flagged := true } } : Game).check_score)
          refine fullInv_check_score _ hstat ?_ ?_
          · show g.score = _
            omega
          · show g.score ≤ ((g.settings.n_mines : Nat) : Int)
            omega

theorem fullInv_reveal {g g' : Game} (fuel : Nat) (row col : Int)
    (h : Game.reveal_cell_area fuel g row col = some g') (hI : FullInv g) :
    FullInv g' := by
  obtain ⟨s1, s2, s3, s4, s5, _, s7, s8⟩ := reveal_stepOK fuel g row col g' h
  constructor
  · intro hend
    obtain ⟨e1, e2⟩ := s7 hend
    obtain ⟨f1, f2⟩ := hI.1 e2
    constructor
    · rw [e1, f1, flaggedMinesCount_eq_of_cells s2 s3 s4]
    · rw [e1, s1]
      exact f2
  · intro hend
    by_cases hsame : g'.end_status = g.end_status
    · rw [hsame] at hend
      exact allUnhidden_mono s2 s3 s5 (hI.2 hend)
    · exact s8 hsame

theorem reachable_fullInv : ∀ g : Game, Reachable g → FullInv g := by
  intro g hg
  induction hg with
  | base n_rows n_cols n_mines ps h => exact fullInv_init n_rows n_cols n_mines ps h
  | toggle row col hin hg ih => exact fullInv_toggle _ row col hin ih
  | reveal fuel row col h hg ih => exact fullInv_reveal fuel row col h ih

/-- C7: on every reachable game state, while `end_status` is `none` the
score equals the number of cells that are both flagged and mined; and
toggling the flag of an in-bounds non-mined cell leaves the score
unchanged and never changes `end_status` (the win check cannot fire). -/
theorem C7_score_invariant (g : Game) (hg : Reachable g) :
    (g.end_status = none → g.score = (g.flaggedMinesCount : Int)) ∧
    (∀ row col : Int, g.board.contains row col = true →
      (g.cellAt row col).mined = false →
      (Game.toggle_flag g row col).1.score = g.score ∧
      (Game.toggle_flag g row col).1.end_status = g.end_status) := by
  have hInv := reachable_fullInv g hg
  constructor
  · intro hend
    exact (hInv.1 hend).1
  · intro row col hin hm
    by_cases hh : (g.cellAt row col).hidden = false
    · rw [toggle_flag_not_hidden g row col hh]
      exact ⟨rfl, rfl⟩
    · have hh2 : (g.board.getCell row col).hidden = true := by
        simp only [Game.cellAt] at hh
        cases hhc : (g.board.getCell row col).hidden
        · exact absurd hhc hh
        · rfl
      by_cases hstat : g.end_status = none
      case neg =>
        exfalso
        have hall := hInv.2 hstat
        rw [Board.contains_iff] at hin
        have hu := hall row.toNat (by omega) col.toNat (by omega)
        rw [show ((row.toNat : Nat) : Int) = row from by omega,
          show ((col.toNat : Nat) : Int) = col from by omega] at hu
        rw [hu] at hh2
        cases hh2
      case pos =>
        obtain ⟨hsc, hlt⟩ := hInv.1 hstat
        simp only [Game.cellAt] at hm
        by_cases hfl : (g.board.getCell row col).flagged = true
        · rw [toggle_flag_hidden_flagged g row col hh2 hfl]
          rw [if_neg (by rw [hm]; exact Bool.false_ne_true)]
          exact ⟨rfl, rfl⟩
        · have hfl2 : (g.board.getCell row col).flagged = false := by
            cases hfc : (g.board.getCell row col).flagged
            · rfl
            · exact absurd hfc hfl
          rw [toggle_flag_hidden_unflagged g row col hh2 hfl2]
          rw [if_neg (by rw [hm]; exact Bool.false_ne_true)]
          rw [check_score_no_win _
            (by show ¬(g.score = ((g.settings.n_mines : Nat) : Int)); omega)]
          exact ⟨rfl, rfl⟩

/-- C7 witness: the invariant instantiated on the fresh reachable game
`demoGame`. -/
theorem C7_score_invariant_witness :
    (demoGame.end_status = none → demoGame.score = (demoGame.flaggedMinesCount : Int)) ∧
    (∀ row col : Int, demoGame.board.contains row col = true →
      (demoGame.cellAt row col).mined = false →
      (Game.toggle_flag demoGame row col).1.score = demoGame.score ∧
      (Game.toggle_flag demoGame row col).1.end_status = demoGame.end_status) :=
  C7_score_invariant demoGame (Reachable.base 2 2 1 [(0, 0)] (by decide))

/-! ### C1 — flood-fill termination -/

theorem allUnhidden_get {g : Game} (h : g.AllUnhidden) {r c : Int}
    (hin : g.board.contains r c = true) : (g.cellAt r c).hidden = false := by
  rw [Board.contains_iff] at hin
  have hu := h r.toNat (by omega) c.toNat (by omega)
  rw [show ((r.toNat : Nat) : Int) = r from by omega,
    show ((c.toNat : Nat) : Int) = c from by omega] at hu
  exact hu

theorem allHidden_get {g : Game} (h : g.AllHidden) {r c : Int}
    (hin : g.board.contains r c = true) : (g.cellAt r c).hidden = true := by
  rw [Board.contains_iff] at hin
  have hu := h r.toNat (by omega) c.toNat (by omega)
  rw [show ((r.toNat : Nat) : Int) = r from by omega,
    show ((c.toNat : Nat) : Int) = c from by omega] at hu
  exact hu

theorem noFlags_get {g : Game} (h : g.NoFlags) {r c : Int}
    (hin : g.board.contains r c = true) : (g.cellAt r c).flagged = false := by
  rw [Board.contains_iff] at hin
  have hu := h r.toNat (by omega) c.toNat (by omega)
  rw [show ((r.toNat : Nat) : Int) = r from by omega,
    show ((c.toNat : Nat) : Int) = c from by omega] at hu
  exact hu

theorem valuesCorrect_get {g : Game} (h : g.ValuesCorrect) {r c : Int}
    (hin : g.board.contains r c = true) :
    (g.cellAt r c).value = g.board.minedNeighbourCount r c := by
  rw [Board.contains_iff] at hin
  have hu := h r.toNat (by omega) c.toNat (by omega)
  rw [show ((r.toNat : Nat) : Int) = r from by omega,
    show ((c.toNat : Nat) : Int) = c from by omega] at hu
  exact hu

theorem countHidden_le_of_stepOK {g g2 : Game} (s : StepOK g g2) :
    g2.countHidden ≤ g.countHidden := by
  obtain ⟨_, s2, s3, _, s5, _, _, _⟩ := s
  unfold Game.countHidden
  have hco : g2.board.allCoords = g.board.allCoords := by
    unfold Board.allCoords
    rw [s2, s3]
  rw [hco]
  refine List.countP_mono_left ?_
  intro p _ hp
  by_cases hgp : (g.board.getCell p.1 p.2).hidden = true
  · exact hgp
  · have hf : (g.board.getCell p.1 p.2).hidden = false := by
      cases hc : (g.board.getCell p.1 p.2).hidden
      · rfl
      · exact absurd hc hgp
    have h2 := s5 p.1 p.2 hf
    simp only [Game.cellAt] at h2
    rw [h2] at hp
    cases hp

theorem countHidden_setCell (g : Game) (row col : Int)
    (hin : g.board.contains row col = true) (cell2 : Cell) (rev : List (Int × Int))
    (d1 d2 : Nat)
    (h1 : (if (g.board.getCell row col).hidden then 1 else 0) = d1)
    (h2 : (if cell2.hidden then 1 else 0) = d2) :
    ({ g with
      board := g.board.setCell row col cell2,
      revealed_cells := rev } : Game).countHidden + d1 = g.countHidden + d2 := by
  have hx : (row, col) ∈ g.board.allCoords := (Board.mem_allCoords _ row col).mpr hin
  have hmain := countP_update_mem g.board.allCoords (g.board.allCoords_nodup) (row, col) hx
    (fun p => (g.board.getCell p.1 p.2).hidden)
    (fun p => ((g.board.setCell row col cell2).getCell p.1 p.2).hidden)
    (by
      intro y _ hne
      have hne2 : ¬(y.1 = row ∧ y.2 = col) := by
        rintro ⟨e1, e2⟩
        exact hne (Prod.ext_iff.mpr ⟨e1, e2⟩)
      simp only [Board.getCell_setCell, hne2, if_neg, if_false])
  dsimp only at hmain
  have hcell : (g.board.setCell row col cell2).getCell row col = cell2 := by
    rw [Board.getCell_setCell, if_pos ⟨rfl, rfl⟩]
  rw [hcell] at hmain
  rw [← h1, ← h2]
  exact hmain

theorem countHidden_pos (g : Game) (row col : Int)
    (hin : g.board.contains row col = true)
    (hh : (g.board.getCell row col).hidden = true) : 1 ≤ g.countHidden := by
  unfold Game.countHidden
  have hx : (row, col) ∈ g.board.allCoords := (Board.mem_allCoords _ row col).mpr hin
  have hpos : 0 < List.countP (fun p => (g.board.getCell p.1 p.2).hidden)
      g.board.allCoords :=
    List.countP_pos_iff.mpr ⟨(row, col), hx, hh⟩
  omega

theorem tryRevealAdjacent_fuel {fuel : Nat}
    (ih : ∀ (g : Game) (row col : Int), g.board.contains row col = true →
      (g.board.getCell row col).hidden = true → g.countHidden < fuel →
      (Game.reveal_cell_area fuel g row col).isSome = true)
    (v : Nat) (g : Game) (row col : Int) (hcount : g.countHidden < fuel) :
    (Game.tryRevealAdjacent fuel v g row col).isSome = true := by
  unfold Game.tryRevealAdjacent
  split
  · rename_i hin
    split
    · rename_i hguard
      exact ih g row col hin hguard.2.1 hcount
    · rfl
  · rfl

/-- Fuel larger than the number of hidden cells always suffices: the
Python recursion terminates. -/
theorem reveal_fuel_enough : ∀ (fuel : Nat) (g : Game) (row col : Int),
    g.board.contains row col = true → (g.board.getCell row col).hidden = true →
    g.countHidden < fuel → (Game.reveal_cell_area fuel g row col).isSome = true := by
  intro fuel
  induction fuel with
  | zero =>
      intro g row col _ _ hcount
      exact absurd hcount (Nat.not_lt_zero _)
  | succ fuel ih =>
      intro g row col hin hh hcount
      rw [reveal_cell_area_succ]
      by_cases hf : (g.board.getCell row col).flagged = true
      · rw [if_pos hf]
        rfl
      · rw [if_neg hf]
        by_cases hm : (g.board.getCell row col).mined = true
        · rw [if_pos hm]
          rfl
        · rw [if_neg hm]
          have hc1 := countHidden_setCell g row col hin
            { g.board.getCell row col with hidden := false }
            (g.revealed_cells ++ [(row, col)]) 1 0 (by simp [hh]) (by simp)
          have hpos := countHidden_pos g row col hin hh
          have hb1 : ({ g with
              board := g.board.setCell row col
                { g.board.getCell row col with hidden := false },
              revealed_cells := g.revealed_cells ++ [(row, col)] } : Game).countHidden
              < fuel := by omega
          have ht2 := tryRevealAdjacent_fuel ih (g.board.getCell row col).value
            _ (row - 1) col hb1
          obtain ⟨g2, hg2⟩ := Option.isSome_iff_exists.mp ht2
          rw [hg2, Option.some_bind]
          have hb2 : g2.countHidden < fuel := by
            have hle := countHidden_le_of_stepOK
              (tryRevealAdjacent_stepOK (reveal_stepOK fuel) _ _ _ _ _ hg2)
            omega
          have ht3 := tryRevealAdjacent_fuel ih (g.board.getCell row col).value
            g2 row (col + 1) hb2
          obtain ⟨g3, hg3⟩ := Option.isSome_iff_exists.mp ht3
          rw [hg3, Option.some_bind]
          have hb3 : g3.countHidden < fuel := by
            have hle := countHidden_le_of_stepOK
              (tryRevealAdjacent_stepOK (reveal_stepOK fuel) _ _ _ _ _ hg3)
            omega
          have ht4 := tryRevealAdjacent_fuel ih (g.board.getCell row col).value
            g3 (row + 1) col hb3
          obtain ⟨g4, hg4⟩ := Option.isSome_iff_exists.mp ht4
          rw [hg4, Option.some_bind]
          have hb4 : g4.countHidden < fuel := by
            have hle := countHidden_le_of_stepOK
              (tryRevealAdjacent_stepOK (reveal_stepOK fuel) _ _ _ _ _ hg4)
            omega
          have ht5 := tryRevealAdjacent_fuel ih (g.board.getCell row col).value
            g4 row (col - 1) hb4
          obtain ⟨g5, hg5⟩ := Option.isSome_iff_exists.mp ht5
          rw [hg5, Option.some_bind]
          rfl

/-! ### C1 — flood-fill coverage -/

theorem stepOK_contains {g g2 : Game} (s : StepOK g g2) (r c : Int) :
    g2.board.contains r c = g.board.contains r c :=
  Board.contains_eq_of_dims g.board g2.board s.2.1 s.2.2.1 r c

theorem stepOK_mined {g g2 : Game} (s : StepOK g g2) (r c : Int) :
    (g2.cellAt r c).mined = (g.cellAt r c).mined := (s.2.2.2.1 r c).1

theorem stepOK_flagged {g g2 : Game} (s : StepOK g g2) (r c : Int) :
    (g2.cellAt r c).flagged = (g.cellAt r c).flagged := (s.2.2.2.1 r c).2.1

theorem stepOK_value {g g2 : Game} (s : StepOK g g2) (r c : Int) :
    (g2.cellAt r c).value = (g.cellAt r c).value := (s.2.2.2.1 r c).2.2

/-- One loop iteration of lines 142-146 unhides the adjacent cell it was
pointed at, provided the revealed cell's value is 0 and the neighbour is
in bounds, unmined and unflagged (whether the recursion fires because the
neighbour was hidden, or it was already unhidden). -/
theorem tryRevealAdjacent_covers {fuel : Nat} {v : Nat} {gA gB : Game}
    {rowq colq : Int}
    (h : Game.tryRevealAdjacent fuel v gA rowq colq = some gB)
    (hv : v = 0)
    (hin : gA.board.contains rowq colq = true)
    (hm : (gA.cellAt rowq colq).mined = false)
    (hf : (gA.cellAt rowq colq).flagged = false) :
    (gB.cellAt rowq colq).hidden = false := by
  unfold Game.tryRevealAdjacent at h
  rw [if_pos hin] at h
  by_cases hh : (gA.board.getCell rowq colq).hidden = true
  · rw [if_pos ⟨hv, hh, hm⟩] at h
    exact reveal_progress fuel gA rowq colq gB h hf hm
  · have hh2 : (gA.board.getCell rowq colq).hidden = false := by
      cases hc : (gA.board.getCell rowq colq).hidden
      · rfl
      · exact absurd hc hh
    rw [if_neg (by simp [hh2])] at h
    injection h with h2
    rw [← h2]
    exact hh2

/-- If one loop iteration of lines 142-146 flips some cell `(a, b)` from
hidden to unhidden and `(a, b)` is an unflagged zero-value cell, then its
admissible orthogonal neighbours end up unhidden too (the flip can only
have happened inside the recursive call, to which the inner closure
hypothesis applies). -/
theorem tryRevealAdjacent_flip {fuel : Nat}
    (ihC : ∀ (g : Game) (row col : Int) (g' : Game),
      Game.reveal_cell_area fuel g row col = some g' →
      ∀ a b : Int, g.board.contains a b = true →
        (g.cellAt a b).hidden = true → (g'.cellAt a b).hidden = false →
        (g.cellAt a b).value = 0 → (g.cellAt a b).flagged = false →
        ∀ q ∈ adjacentCoords a b, g.board.contains q.1 q.2 = true →
          (g.cellAt q.1 q.2).mined = false → (g.cellAt q.1 q.2).flagged = false →
          (g'.cellAt q.1 q.2).hidden = false)
    {v : Nat} {gA gB : Game} {rowq colq : Int}
    (h : Game.tryRevealAdjacent fuel v gA rowq colq = some gB)
    {a b : Int} (hinab : gA.board.contains a b = true)
    (hA : (gA.cellAt a b).hidden = true) (hB : (gB.cellAt a b).hidden = false)
    (hv : (gA.cellAt a b).value = 0) (hf : (gA.cellAt a b).flagged = false) :
    ∀ q ∈ adjacentCoords a b, gA.board.contains q.1 q.2 = true →
      (gA.cellAt q.1 q.2).mined = false → (gA.cellAt q.1 q.2).flagged = false →
      (gB.cellAt q.1 q.2).hidden = false := by
  unfold Game.tryRevealAdjacent at h
  split at h
  · split at h
    · exact ihC _ _ _ _ h a b hinab hA hB hv hf
    · injection h with h2
      subst h2
      rw [hA] at hB
      cases hB
  · injection h with h2
    subst h2
    rw [hA] at hB
    cases hB

/-- Closure of a completed `reveal_cell_area` call: any unflagged
zero-value cell it flips from hidden to unhidden has all of its in-bounds,
unmined, unflagged orthogonal neighbours unhidden in the final state
(lines 142-146 of the source: the loop runs over exactly those
neighbours whenever the revealed cell's value is 0). -/
theorem reveal_closure : ∀ (fuel : Nat) (g : Game) (row col : Int) (g' : Game),
    Game.reveal_cell_area fuel g row col = some g' →
    ∀ a b : Int, g.board.contains a b = true →
      (g.cellAt a b).hidden = true → (g'.cellAt a b).hidden = false →
      (g.cellAt a b).value = 0 → (g.cellAt a b).flagged = false →
      ∀ q ∈ adjacentCoords a b, g.board.contains q.1 q.2 = true →
        (g.cellAt q.1 q.2).mined = false → (g.cellAt q.1 q.2).flagged = false →
        (g'.cellAt q.1 q.2).hidden = false := by
  intro fuel
  induction fuel with
  | zero =>
      intro g row col g' h
      simp [Game.reveal_cell_area] at h
  | succ fuel ih =>
      intro g row col g' h a b hinab hA hB hv hf q hq hinq hmq hfq
      have sAll := reveal_stepOK (fuel + 1) g row col g' h
      rw [reveal_cell_area_succ] at h
      by_cases hfl : (g.board.getCell row col).flagged = true
      · rw [if_pos hfl] at h
        injection h with h2
        subst h2
        rw [hA] at hB
        cases hB
      · rw [if_neg hfl] at h
        by_cases hmn : (g.board.getCell row col).mined = true
        · rw [if_pos hmn] at h
          injection h with h2
          subst h2
          rcases reveal_end_check_cases (Game.reveal_all_cells
              { g with end_status := some Status.lost }) with ⟨_, he⟩ | ⟨_, he⟩
          · rw [he] at sAll ⊢
            refine allUnhidden_get (reveal_all_cells_allUnhidden _) ?_
            rw [Board.contains_eq_of_dims g.board _ sAll.2.1 sAll.2.2.1]
            exact hinq
          · rw [he] at sAll ⊢
            refine allUnhidden_get (reveal_all_cells_allUnhidden _) ?_
            rw [Board.contains_eq_of_dims g.board _ sAll.2.1 sAll.2.2.1]
            exact hinq
        · rw [if_neg hmn] at h
          have sU := stepOK_unhide g row col
          cases h2 : Game.tryRevealAdjacent fuel (g.board.getCell row col).value
              { g with
                board := g.board.setCell row col
                  { g.board.getCell row col with hidden := false },
                revealed_cells := g.revealed_cells ++ [(row, col)] } (row - 1) col with
          | none => rw [h2] at h; simp at h
          | some g2 =>
            rw [h2] at h
            simp only [Option.some_bind] at h
            cases h3 : Game.tryRevealAdjacent fuel (g.board.getCell row col).value g2
                row (col + 1) with
            | none => rw [h3] at h; simp at h
            | some g3 =>
              rw [h3] at h
              simp only [Option.some_bind] at h
              cases h4 : Game.tryRevealAdjacent fuel (g.board.getCell row col).value g3
                  (row + 1) col with
              | none => rw [h4] at h; simp at h
              | some g4 =>
                rw [h4] at h
                simp only [Option.some_bind] at h
                cases h5 : Game.tryRevealAdjacent fuel (g.board.getCell row col).value g4
                    row (col - 1) with
                | none => rw [h5] at h; simp at h
                | some g5 =>
                  rw [h5] at h
                  simp only [Option.some_bind, Option.some.injEq] at h
                  subst h
                  have s12 := tryRevealAdjacent_stepOK (reveal_stepOK fuel) _ _ _ _ _ h2
                  have s23 := tryRevealAdjacent_stepOK (reveal_stepOK fuel) _ _ _ _ _ h3
                  have s34 := tryRevealAdjacent_stepOK (reveal_stepOK fuel) _ _ _ _ _ h4
                  have s45 := tryRevealAdjacent_stepOK (reveal_stepOK fuel) _ _ _ _ _ h5
                  have sG2 := stepOK_trans sU s12
                  have sG3 := stepOK_trans sG2 s23
                  have sG4 := stepOK_trans sG3 s34
                  rcases reveal_end_check_cases g5 with ⟨_, he⟩ | ⟨_, he⟩
                  · rw [he] at sAll ⊢
                    refine allUnhidden_get (reveal_all_cells_allUnhidden _) ?_
                    rw [Board.contains_eq_of_dims g.board _ sAll.2.1 sAll.2.2.1]
                    exact hinq
                  · rw [he] at hB ⊢
                    by_cases hb1 : (({ g with
                        board := g.board.setCell row col
                          { g.board.getCell row col with hidden := false },
                        revealed_cells := g.revealed_cells ++ [(row, col)] }
                        : Game).cellAt a b).hidden = true
                    · by_cases hbg2 : (g2.cellAt a b).hidden = true
                      · by_cases hbg3 : (g3.cellAt a b).hidden = true
                        · by_cases hbg4 : (g4.cellAt a b).hidden = true
                          · exact tryRevealAdjacent_flip ih h5
                              (by rw [stepOK_contains sG4]; exact hinab) hbg4 hB
                              (by rw [stepOK_value sG4]; exact hv)
                              (by rw [stepOK_flagged sG4]; exact hf)
                              q hq (by rw [stepOK_contains sG4]; exact hinq)
                              (by rw [stepOK_mined sG4]; exact hmq)
                              (by rw [stepOK_flagged sG4]; exact hfq)
                          · have hbg4f : (g4.cellAt a b).hidden = false := by
                              cases hcc : (g4.cellAt a b).hidden
                              · rfl
                              · exact absurd hcc hbg4
                            have hres := tryRevealAdjacent_flip ih h4
                              (by rw [stepOK_contains sG3]; exact hinab) hbg3 hbg4f
                              (by rw [stepOK_value sG3]; exact hv)
                              (by rw [stepOK_flagged sG3]; exact hf)
                              q hq (by rw [stepOK_contains sG3]; exact hinq)
                              (by rw [stepOK_mined sG3]; exact hmq)
                              (by rw [stepOK_flagged sG3]; exact hfq)
                            exact stepOK_hidden_false s45 hres
                        · have hbg3f : (g3.cellAt a b).hidden = false := by
                            cases hcc : (g3.cellAt a b).hidden
                            · rfl
                            · exact absurd hcc hbg3
                          have hres := tryRevealAdjacent_flip ih h3
                            (by rw [stepOK_contains sG2]; exact hinab) hbg2 hbg3f
                            (by rw [stepOK_value sG2]; exact hv)
                            (by rw [stepOK_flagged sG2]; exact hf)
                            q hq (by rw [stepOK_contains sG2]; exact hinq)
                            (by rw [stepOK_mined sG2]; exact hmq)
                            (by rw [stepOK_flagged sG2]; exact hfq)
                          exact stepOK_hidden_false (stepOK_trans s34 s45) hres
                      · have hbg2f : (g2.cellAt a b).hidden = false := by
                          cases hcc : (g2.cellAt a b).hidden
                          · rfl
                          · exact absurd hcc hbg2
                        have hres := tryRevealAdjacent_flip ih h2
                          (by rw [stepOK_contains sU]; exact hinab) hb1 hbg2f
                          (by rw [stepOK_value sU]; exact hv)
                          (by rw [stepOK_flagged sU]; exact hf)
                          q hq (by rw [stepOK_contains sU]; exact hinq)
                          (by rw [stepOK_mined sU]; exact hmq)
                          (by rw [stepOK_flagged sU]; exact hfq)
                        exact stepOK_hidden_false
                          (stepOK_trans s23 (stepOK_trans s34 s45)) hres
                    · have hab : a = row ∧ b = col := by
                        by_contra hne
                        apply hb1
                        have hsame : (({ g with
                            board := g.board.setCell row col
                              { g.board.getCell row col with hidden := false },
                            revealed_cells := g.revealed_cells ++ [(row, col)] }
                            : Game).cellAt a b) = g.cellAt a b := by
                          simp [Game.cellAt, Board.getCell_setCell, hne]
                        rw [hsame]
                        exact hA
                      obtain ⟨rfl, rfl⟩ := hab
                      simp only [adjacentCoords, List.mem_cons, List.not_mem_nil,
                        or_false] at hq
                      rcases hq with rfl | rfl | rfl | rfl
                      · have hcov := tryRevealAdjacent_covers h2 hv
                          (by rw [stepOK_contains sU]; exact hinq)
                          (by rw [stepOK_mined sU]; exact hmq)
                          (by rw [stepOK_flagged sU]; exact hfq)
                        exact stepOK_hidden_false
                          (stepOK_trans s23 (stepOK_trans s34 s45)) hcov
                      · have hcov := tryRevealAdjacent_covers h3 hv
                          (by rw [stepOK_contains sG2]; exact hinq)
                          (by rw [stepOK_mined sG2]; exact hmq)
                          (by rw [stepOK_flagged sG2]; exact hfq)
                        exact stepOK_hidden_false (stepOK_trans s34 s45) hcov
                      · have hcov := tryRevealAdjacent_covers h4 hv
                          (by rw [stepOK_contains sG3]; exact hinq)
                          (by rw [stepOK_mined sG3]; exact hmq)
                          (by rw [stepOK_flagged sG3]; exact hfq)
                        exact stepOK_hidden_false s45 hcov
                      · exact tryRevealAdjacent_covers h5 hv
                          (by rw [stepOK_contains sG4]; exact hinq)
                          (by rw [stepOK_mined sG4]; exact hmq)
                          (by rw [stepOK_flagged sG4]; exact hfq)

theorem adjacent_mem_neighbours (r c : Int) (q : Int × Int)
    (hq : q ∈ adjacentCoords r c) : q ∈ neighboursCoors r c := by
  simp only [adjacentCoords, List.mem_cons, List.not_mem_nil, or_false] at hq
  rcases hq with rfl | rfl | rfl | rfl <;> simp [neighboursCoors]

theorem minedNeighbourCount_pos (b : Board) (r c : Int) (q : Int × Int)
    (hq : q ∈ b.get_cell_neighbours r c) (hm : (b.getCell q.1 q.2).mined = true) :
    1 ≤ b.minedNeighbourCount r c := by
  unfold Board.minedNeighbourCount
  have hmem : q ∈ (b.get_cell_neighbours r c).filter
      (fun p => (b.getCell p.1 p.2).mined) :=
    List.mem_filter.mpr ⟨hq, hm⟩
  exact List.length_pos_of_mem hmem

/-- On a board whose values are correct, every cell of the connected
zero region of an unmined zero cell is in bounds, unmined and of value
0 (a mined orthogonal neighbour would force a positive value). -/
theorem zeroReach_props (g : Game) (r0 c0 : Int) (hvc : g.ValuesCorrect)
    (hin : g.board.contains r0 c0 = true) (hm : (g.cellAt r0 c0).mined = false)
    (hv : (g.cellAt r0 c0).value = 0) :
    ∀ r c : Int, ZeroReach g r0 c0 r c →
      g.board.contains r c = true ∧ (g.cellAt r c).mined = false ∧
      (g.cellAt r c).value = 0 := by
  intro r c hreach
  induction hreach with
  | base => exact ⟨hin, hm, hv⟩
  | step hprev hval hadj hcont hval2 ih =>
      rename_i r1 c1 r2 c2
      refine ⟨hcont, ?_, hval2⟩
      by_cases hmq : (g.cellAt r2 c2).mined = true
      · exfalso
        have hcm := valuesCorrect_get hvc ih.1
        have hq8 : (r2, c2) ∈ g.board.get_cell_neighbours r1 c1 :=
          (Board.mem_get_cell_neighbours _ _ _ _).mpr
            ⟨adjacent_mem_neighbours _ _ _ hadj, hcont⟩
        have hpos := minedNeighbourCount_pos g.board r1 c1 (r2, c2) hq8 hmq
        rw [← hcm] at hpos
        rw [hval] at hpos
        omega
      · cases hmc : (g.cellAt r2 c2).mined
        · rfl
        · exact absurd hmc hmq

/-- C1 counterexample: `stripFlagged` (the 1-by-5 board with its mine at
`(0, 4)` and a flag placed on `(0, 1)`) has `end_status = none`, and its
cell `(0, 0)` is hidden, unflagged, unmined and of value 0;
`reveal_cell_area` at `(0, 0)` terminates, and `(0, 2)` lies in the
connected zero-value region of `(0, 0)` and is unflagged — yet after the
reveal both `(0, 1)` and `(0, 2)` are still hidden: the flag blocks the
flood fill, refuting "every cell of the connected zero-value region is
unhidden". -/
theorem C1_counterexample :
    stripFlagged.end_status = none ∧
    (stripFlagged.cellAt 0 0).hidden = true ∧
    (stripFlagged.cellAt 0 0).flagged = false ∧
    (stripFlagged.cellAt 0 0).mined = false ∧
    (stripFlagged.cellAt 0 0).value = 0 ∧
    stripFlagged.ValuesCorrect ∧
    (Game.reveal_cell_area 10 stripFlagged 0 0).isSome = true ∧
    ZeroReach stripFlagged 0 0 0 2 ∧
    (stripFlagged.cellAt 0 2).flagged = false ∧
    (stripRevealed.cellAt 0 2).hidden = true ∧
    (stripRevealed.cellAt 0 1).hidden = true := by
  refine ⟨by decide, by decide, by decide, by decide, by decide, by decide,
    by decide, ?_, by decide, by decide, by decide⟩
  exact @ZeroReach.step stripFlagged 0 0 0 1 0 2
    (@ZeroReach.step stripFlagged 0 0 0 0 0 1 ZeroReach.base
      (by decide) (by decide) (by decide) (by decide))
    (by decide) (by decide) (by decide) (by decide)

/-- C1 (amended): on a game whose board values are correct and in which
every cell is hidden and unflagged (a fresh board, before any flags),
with `end_status = none`, revealing an in-bounds, unmined, zero-value
cell `(r0, c0)` terminates — fuel one more than the number of hidden
cells is always enough — and on return every cell of the connected
zero-value region of `(r0, c0)` is unhidden, together with its one-ring
boundary: every in-bounds 4-orthogonal neighbour of a region cell.
(Propagation is through the four orthogonal neighbours only; on general
states the claim fails because a flag inside the region blocks the flood
fill.) -/
theorem C1_flood_fill_region (g : Game) (r0 c0 : Int)
    (hvc : g.ValuesCorrect) (hall : g.AllHidden) (hnf : g.NoFlags)
    (hstat : g.end_status = none)
    (hin : g.board.contains r0 c0 = true)
    (hm : (g.cellAt r0 c0).mined = false)
    (hv : (g.cellAt r0 c0).value = 0) :
    ∃ g' : Game,
      Game.reveal_cell_area (g.countHidden + 1) g r0 c0 = some g' ∧
      (∀ r c : Int, ZeroReach g r0 c0 r c → (g'.cellAt r c).hidden = false) ∧
      (∀ r c : Int, ZeroReach g r0 c0 r c →
        ∀ q ∈ adjacentCoords r c, g.board.contains q.1 q.2 = true →
          (g'.cellAt q.1 q.2).hidden = false) := by
  have hhid : (g.board.getCell r0 c0).hidden = true := allHidden_get hall hin
  have hsome := reveal_fuel_enough (g.countHidden + 1) g r0 c0 hin hhid (by omega)
  obtain ⟨g', heq⟩ := Option.isSome_iff_exists.mp hsome
  have hprops := zeroReach_props g r0 c0 hvc hin hm hv
  have hflag0 : (g.cellAt r0 c0).flagged = false := noFlags_get hnf hin
  have hregion : ∀ r c : Int, ZeroReach g r0 c0 r c →
      (g'.cellAt r c).hidden = false := by
    intro r c hreach
    induction hreach with
    | base => exact reveal_progress _ g r0 c0 g' heq hflag0 hm
    | step hprev hval hadj hcont hval2 ih =>
        rename_i r1 c1 r2 c2
        obtain ⟨hc1, hm1, hv1⟩ := hprops _ _ hprev
        obtain ⟨hc2, hm2, hv2⟩ := hprops _ _
          (ZeroReach.step hprev hval hadj hcont hval2)
        exact reveal_closure _ g r0 c0 g' heq r1 c1 hc1 (allHidden_get hall hc1) ih
          hv1 (noFlags_get hnf hc1) (r2, c2) hadj hcont hm2 (noFlags_get hnf hc2)
  refine ⟨g', heq, hregion, ?_⟩
  intro r c hreach q hq hinq
  obtain ⟨hc1, hm1, hv1⟩ := hprops _ _ hreach
  have hmq : (g.cellAt q.1 q.2).mined = false := by
    by_cases hmm : (g.cellAt q.1 q.2).mined = true
    · exfalso
      have hcm := valuesCorrect_get hvc hc1
      have hq8 : q ∈ g.board.get_cell_neighbours r c :=
        (Board.mem_get_cell_neighbours _ _ _ _).mpr
          ⟨adjacent_mem_neighbours _ _ _ hq, hinq⟩
      have hpos := minedNeighbourCount_pos g.board r c q hq8 hmm
      rw [← hcm] at hpos
      rw [hv1] at hpos
      omega
    · cases hmc : (g.cellAt q.1 q.2).mined
      · rfl
      · exact absurd hmc hmm
  exact reveal_closure _ g r0 c0 g' heq r c hc1 (allHidden_get hall hc1)
    (hregion r c hreach) hv1 (noFlags_get hnf hc1) q hq hinq hmq
    (noFlags_get hnf hinq)

/-- C1 witness: `stripGame` (fresh 1-by-5 board, one mine at `(0, 4)`)
satisfies every hypothesis of the amended flood-fill theorem at `(0, 0)`,
and the theorem applies. -/
theorem C1_flood_fill_region_witness :
    stripGame.ValuesCorrect ∧ stripGame.AllHidden ∧ stripGame.NoFlags ∧
    stripGame.end_status = none ∧ stripGame.board.contains 0 0 = true ∧
    (stripGame.cellAt 0 0).mined = false ∧ (stripGame.cellAt 0 0).value = 0 ∧
    (∃ g' : Game,
      Game.reveal_cell_area (stripGame.countHidden + 1) stripGame 0 0 = some g' ∧
      (∀ r c : Int, ZeroReach stripGame 0 0 r c → (g'.cellAt r c).hidden = false) ∧
      (∀ r c : Int, ZeroReach stripGame 0 0 r c →
        ∀ q ∈ adjacentCoords r c, stripGame.board.contains q.1 q.2 = true →
          (g'.cellAt q.1 q.2).hidden = false)) :=
  ⟨by decide, by decide, by decide, by decide, by decide, by decide, by decide,
   C1_flood_fill_region stripGame 0 0 (by decide) (by decide) (by decide)
     (by decide) (by decide) (by decide) (by decide)⟩

/-! ### Registry lemmas -/

theorem lookup_filter_out_eq_none (l : List (String × RegEntry)) (game_id : String) :
    (l.filter (fun p => !(p.1 == game_id))).lookup game_id = none := by
  induction l with
  | nil => rfl
  | cons p t ih =>
      obtain ⟨k, v⟩ := p
      by_cases h : k = game_id
      · simp [List.filter_cons, h, ih]
      · have hkb : (k == game_id) = false := beq_false_of_ne h
        have hgb : (game_id == k) = false := beq_false_of_ne (fun h3 => h h3.symm)
        simp [List.filter_cons, hkb, List.lookup_cons, hgb, ih]

theorem lookup_map_refresh (l : List (String × RegEntry)) (game_id : String)
    (now : Int) (e : RegEntry) (h : l.lookup game_id = some e) :
    (l.map (fun p => if p.1 == game_id then (p.1, { p.2 with created_at := now }) else p)).lookup
        game_id = some { game := e.game, created_at := now } := by
  induction l with
  | nil => simp at h
  | cons p t ih =>
      obtain ⟨k, v⟩ := p
      by_cases hp : k = game_id
      · have hx : (game_id == k) = true := by simp [hp]
        have hx2 : (k == game_id) = true := by simp [hp]
        rw [List.lookup_cons] at h
        simp only [hx] at h
        cases h
        simp [List.map_cons, hp, List.lookup_cons]
      · have hx : (game_id == k) = false := beq_false_of_ne (fun h3 => hp h3.symm)
        have hx2 : (k == game_id) = false := beq_false_of_ne hp
        rw [List.lookup_cons] at h
        simp only [hx] at h
        rw [List.map_cons]
        simp only [hx2, Bool.false_eq_true, if_false]
        rw [List.lookup_cons]
        simp only [hx]
        exact ih h

/-! ### C9 — unregister_game -/

/-- C9 counterexample: the claim asserts that unregistering an absent
identifier succeeds without error, but `del self.games[game_id]` raises
`KeyError` on a registry that does not hold the identifier. -/
theorem C9_counterexample :
    GamesManager.unregister_game demoManager "b" = Except.error PyExc.keyError := rfl

/-- C9 (amended): `unregister_game(id)` removes the entry for `id` when
it is present; when `id` is absent it raises `KeyError` (it is not
idempotent). -/
theorem C9_unregister_removes_present (m : GamesManager) (game_id : String)
    (e : RegEntry) (h : m.games.lookup game_id = some e) :
    GamesManager.unregister_game m game_id =
      Except.ok { m with games := m.games.filter (fun p => !(p.1 == game_id)) } ∧
    ∀ m', GamesManager.unregister_game m game_id = Except.ok m' →
      m'.games.lookup game_id = none := by
  constructor
  · simp [GamesManager.unregister_game, h]
  · intro m' hm
    simp [GamesManager.unregister_game, h] at hm
    subst hm
    exact lookup_filter_out_eq_none m.games game_id

/-- C9 witness: a concrete registry where unregistering the present
identifier returns the registry without it. -/
theorem C9_unregister_removes_present_witness :
    demoManager.games.lookup "a" = some { game := demoGame, created_at := 0 } ∧
    (GamesManager.unregister_game demoManager "a" =
      Except.ok { demoManager with
        games := demoManager.games.filter (fun p => !(p.1 == "a")) } ∧
    ∀ m', GamesManager.unregister_game demoManager "a" = Except.ok m' →
      m'.games.lookup "a" = none) :=
  ⟨rfl, C9_unregister_removes_present demoManager "a" { game := demoGame, created_at := 0 } rfl⟩

/-! ### C10 — get_game and expiration -/

/-- C10: for an identifier present in the registry, `get_game` returns
the stored game and resets the entry's `created_at` to now — with no
hypothesis on the entry's remaining time, so this holds in particular
when `secs_to_game_expire` is already non-positive; the entry stays in
the registry.  Expiration only filters the live listing: every summary
produced by `get_nonexpired_games` has positive seconds-to-expire. -/
theorem C10_get_game_refreshes (m : GamesManager) (game_id : String) (now : Int)
    (e : RegEntry) (h : m.games.lookup game_id = some e) :
    (m.get_game game_id now).1 = some e.game ∧
    ((m.get_game game_id now).2.games.lookup game_id =
      some { game := e.game, created_at := now }) ∧
    (∀ s ∈ m.get_nonexpired_games now, 0 < s.secs_to_expire) := by
  refine ⟨?_, ?_, ?_⟩
  · simp [GamesManager.get_game, h]
  · simp only [GamesManager.get_game, h]
    exact lookup_map_refresh m.games game_id now e h
  · intro s hs
    simp only [GamesManager.get_nonexpired_games, List.mem_filterMap] at hs
    obtain ⟨p, _, hp⟩ := hs
    by_cases hpos : m.game_expiration - (now - p.2.created_at) > 0
    · simp only [hpos, if_pos] at hp
      cases hp
      exact hpos
    · simp [hpos] at hp

/-- C10 witness: the concrete registry entry registered at time 0 and
looked up at time 100, long past the 3-second window
(`secs_to_game_expire = -97 ≤ 0`), is still returned and refreshed. -/
theorem C10_get_game_refreshes_witness :
    demoManager.games.lookup "a" = some { game := demoGame, created_at := 0 } ∧
    demoManager.secs_to_game_expire "a" 100 = some (-97) ∧
    ((demoManager.get_game "a" 100).1 = some demoGame ∧
      ((demoManager.get_game "a" 100).2.games.lookup "a" =
        some { game := demoGame, created_at := 100 }) ∧
      (∀ s ∈ demoManager.get_nonexpired_games 100, 0 < s.secs_to_expire)) :=
  ⟨rfl, rfl,
    C10_get_game_refreshes demoManager "a" 100 { game := demoGame, created_at := 0 } rfl⟩

/-! ### C5 — the mine-count guard -/

/-- C5: the claim says an overfull configuration raises
`NotEnoughCellsError` carrying the mine and cell counts.  The guard does
fire before any placement, but its raise line reads `self.n_cells` on the
`Game` object, which has no such attribute, so the code actually raises
`AttributeError` — the intended `NotEnoughBoardCellsError(5, 4)` is never
constructed.  Shown here on a 2-by-2 board (4 cells) with 5 requested
mines. -/
theorem C5_guard_raises_attribute_error :
    place_mines_randomly_check
        { n_rows := 2, n_cols := 2, mines_ratio := 8, n_mines := 5 } (Board.init 2 2) =
      Except.error PyExc.attributeError ∧
    (Except.error PyExc.attributeError : Except PyExc Unit) ≠
      Except.error (PyExc.notEnoughBoardCells 5 4) := by
  refine ⟨rfl, ?_⟩
  intro h
  exact absurd (Except.error.inj h) (by intro h2; cases h2)

/-! ### C8 — toggling a revealed cell -/

/-- C8: `toggle_flag` on a cell whose `hidden` flag is false returns the
recoverable message and the completely unchanged game state. -/
theorem C8_toggle_revealed_rejected (g : Game) (row col : Int)
    (h : (g.cellAt row col).hidden = false) :
    Game.toggle_flag g row col = (g, some cannotFlagMsg) := by
  simp [Game.toggle_flag, Game.cellAt, Board.getCell] at *
  simp [h]

/-- C8 witness: in `demoWon` every cell is revealed; toggling `(0, 1)` is
rejected with the message and no state change. -/
theorem C8_toggle_revealed_rejected_witness :
    (demoWon.cellAt 0 1).hidden = false ∧
    Game.toggle_flag demoWon 0 1 = (demoWon, some cannotFlagMsg) :=
  ⟨by decide, C8_toggle_revealed_rejected demoWon 0 1 (by decide)⟩

end Minsk
